import Mathlib

/-!
Shallow embedding of `src/acbfxml.py` (class `ACBF`), a converter between
ACBF XML comic metadata and the normalized `GenericMetadata` record, plus
proofs settling the frozen claims about its specification.

XML trees are modelled by the inductive `Element` mirroring
`xml.etree.ElementTree.Element` (tag, ordered attribute pairs, optional
text, ordered children).  Bytes that may fail to parse are modelled as
`Option Element` (`none` = bytes `ET.fromstring` rejects).  External
collaborators from `comicapi` (`utils.xlate`, `utils.parse_date_str`,
`parse_url`, `utils.split`, `utils.get_page_name_list`, the credit-role
synonym tables) are passed in as parameters, as the spec treats them as
given inputs.
-/

namespace Acbf

/-- Python string truthiness for an optional string: `None` and `''` are falsy. -/
def truthyS : Option String → Bool
  | none => false
  | some s => s ≠ ""

/-- Python integer truthiness for an optional integer: `None` and `0` are falsy. -/
def truthyI : Option Int → Bool
  | none => false
  | some n => n ≠ 0

/-- Character-list prefix test (the core `String` operations are opaque to
kernel reduction, so every string operation here works on `String.data`). -/
def startsWithL : List Char → List Char → Bool
  | _, [] => true
  | [], _ :: _ => false
  | c :: cs, p :: ps => c = p && startsWithL cs ps

/-- Python `str.startswith`. -/
def pyStartsWith (s pre : String) : Bool := startsWithL s.data pre.data

/-- Python `str.endswith`. -/
def pyEndsWith (s sfx : String) : Bool := startsWithL s.data.reverse sfx.data.reverse

/-- Python `str.casefold`, modelled as ASCII lowercasing (every string the
source compares this way is ASCII). -/
def pyCasefold (s : String) : String := .mk (s.data.map Char.toLower)

/-- Python `str.replace(a, b)` for one-character patterns (the only kind the
source uses). -/
def pyReplaceChar (s : String) (a b : Char) : String :=
  .mk (s.data.map (fun c => if c = a then b else c))

/-- Python `str.strip()` over a character list. -/
def trimL (cs : List Char) : List Char :=
  ((cs.dropWhile Char.isWhitespace).reverse.dropWhile Char.isWhitespace).reverse

/-- Decimal digit parse of a character list. -/
def digitsVal : List Char → Option Nat
  | [] => none
  | cs => cs.foldl (fun acc c => match acc with
      | some n => if c.isDigit then some (n * 10 + (c.toNat - '0'.toNat)) else none
      | none => none) (some 0)

/-- Python `int(...)` on an attribute value: optional sign, decimal digits,
surrounding whitespace tolerated.  The source only feeds it numeric
strings; a non-numeric value would raise `ValueError`, modelled as `0`
(no claim exercises that path). -/
def pyInt (s : String) : Int :=
  match trimL s.data with
  | '-' :: ds => match digitsVal ds with
    | some n => -(n : Int)
    | none => 0
  | '+' :: ds => match digitsVal ds with
    | some n => (n : Int)
    | none => 0
  | ds => match digitsVal ds with
    | some n => (n : Int)
    | none => 0

/-- Whitespace-run splitting over a character list, dropping empty pieces
(accumulator holds the current word reversed). -/
def wordsAux : List Char → List Char → List String
  | [], acc => if acc.isEmpty then [] else [String.mk acc.reverse]
  | c :: cs, acc =>
    if c.isWhitespace then
      if acc.isEmpty then wordsAux cs [] else String.mk acc.reverse :: wordsAux cs []
    else wordsAux cs (c :: acc)

/-- Python `str.split()` with no separator: split on whitespace runs and drop
empty pieces. -/
def pySplitWs (s : String) : List String := wordsAux s.data []

/-- Separator splitting over a character list; the fuel argument (always the
input length plus one, each step consuming at least one character) keeps the
recursion structural. -/
def splitOnAux (sep : List Char) : Nat → List Char → List Char → List (List Char)
  | 0, rest, acc => [acc.reverse ++ rest]
  | _ + 1, [], acc => [acc.reverse]
  | fuel + 1, c :: cs, acc =>
    if startsWithL (c :: cs) sep then
      acc.reverse :: splitOnAux sep fuel (List.drop sep.length (c :: cs)) []
    else splitOnAux sep fuel cs (c :: acc)

/-- Python `str.split(sep)` for a non-empty separator. -/
def pySplitOn (s sep : String) : List String :=
  (splitOnAux sep.data (s.data.length + 1) s.data []).map String.mk

/-- Python `sep.join(parts)`. -/
def joinWith (sep : String) : List String → String
  | [] => ""
  | [x] => x
  | x :: y :: rest => x ++ sep ++ joinWith sep (y :: rest)

/-- Python slicing `s[n:]` (by characters; the source only slices ASCII
markers). -/
def pyDropN (s : String) (n : Nat) : String := .mk (s.data.drop n)

/-- Python slicing `s[:n]`. -/
def pyTakeN (s : String) (n : Nat) : String := .mk (s.data.take n)

/-- Python `str.removesuffix`. -/
def removeSfx (s sfx : String) : String :=
  if pyEndsWith s sfx then .mk (s.data.take (s.data.length - sfx.data.length)) else s

/-- Python `str.strip('\x7b\x7d')`: drop leading and trailing brace characters. -/
def stripBraces (s : String) : String :=
  let isBrace : Char → Bool := fun c => c = '\x7b' || c = '\x7d'
  let cs := s.data.dropWhile isBrace
  String.mk ((cs.reverse.dropWhile isBrace).reverse)

/-- Zero left padding of a natural number's decimal form to width `w`. -/
def padNat (w : Nat) (n : Nat) : String :=
  let s := toString n
  if s.data.length < w then String.mk (List.replicate (w - s.data.length) '0') ++ s else s

/-- Python `f'\x7bn:04\x7d'` for an integer (the width counts a minus sign). -/
def pad4 (n : Int) : String :=
  if n < 0 then "-" ++ padNat 3 n.natAbs else padNat 4 n.toNat

/-- Python `f'\x7bn:02\x7d'` for an integer (the width counts a minus sign). -/
def pad2 (n : Int) : String :=
  if n < 0 then "-" ++ padNat 1 n.natAbs else padNat 2 n.toNat

/-- Python `x or d` for an optional integer (`None` and `0` fall back to `d`). -/
def pyOrI (o : Option Int) (d : Int) : Int :=
  match o with
  | none => d
  | some n => if n = 0 then d else n

/-- Python set-like insertion into a list: append the element if absent. -/
def listAdd {α : Type} [DecidableEq α] (l : List α) (x : α) : List α :=
  if x ∈ l then l else l ++ [x]

/-- Python `set(...)` over a list, modelled as order-preserving deduplication. -/
def listDedup {α : Type} [DecidableEq α] (l : List α) : List α :=
  l.foldl listAdd []

/-- An XML element as in `xml.etree.ElementTree`: tag, ordered attribute
pairs, optional text, ordered children.  Tails and comments are not
modelled; the source never reads them. -/
inductive Element where
  | mk (tag : String) (attrib : List (String × String)) (text : Option String)
       (children : List Element)

instance : Inhabited Element := ⟨.mk "" [] none []⟩

def Element.tag : Element → String
  | .mk t _ _ _ => t

def Element.attrib : Element → List (String × String)
  | .mk _ a _ _ => a

def Element.text : Element → Option String
  | .mk _ _ x _ => x

def Element.children : Element → List Element
  | .mk _ _ _ cs => cs

/-- Python `element.get(key)`: look an attribute up, `None` when absent. -/
def Element.get (e : Element) (k : String) : Option String :=
  (e.attrib.find? (fun p => p.1 = k)).map (fun p => p.2)

/-- Python `element.attrib[k] = v`: replace the pair in place when the key
exists (dict semantics keep its position), append otherwise. -/
def Element.setAttr (e : Element) (k v : String) : Element :=
  match e with
  | .mk t a x cs =>
    if a.any (fun p => p.1 = k) then
      .mk t (a.map (fun p => if p.1 = k then (k, v) else p)) x cs
    else .mk t (a ++ [(k, v)]) x cs

/-- Replacement for a constructor update of the children list. -/
def Element.withChildren (e : Element) (cs : List Element) : Element :=
  match e with
  | .mk t a x _ => .mk t a x cs

/-- ElementTree `findall` for a slash-separated tag path (relative to `e`,
matches enumerated in path order, which is document order for tag-only
paths).  The path comes first so the recursion is structural on it. -/
def findAllPath : List String → Element → List Element
  | [], e => [e]
  | s :: rest, e =>
    (e.children.filter (fun c => c.tag = s)).flatMap (fun c => findAllPath rest c)

/-- ElementTree `find` for a tag path: the first `findall` result. -/
def findPath (segs : List String) (e : Element) : Option Element :=
  (findAllPath segs e).head?

mutual

/-- ElementTree `findall('.//tag')` at an element: every strict descendant
with the given tag, in document (preorder) order. -/
def findAllDeep (t : String) : Element → List Element
  | .mk _ _ _ cs => findAllDeepL t cs

/-- Deep search over a forest: each root that matches comes before its own
matching descendants, siblings follow. -/
def findAllDeepL (t : String) : List Element → List Element
  | [] => []
  | c :: cs => ((if c.tag = t then [c] else []) ++ findAllDeep t c) ++ findAllDeepL t cs

end

/-- Apply `f` to the first child with the given tag, reporting success. -/
def editLeaf (f : Element → Element) (s : String) : List Element → List Element × Bool
  | [] => ([], false)
  | c :: cs =>
    if c.tag = s then (f c :: cs, true)
    else
      let r := editLeaf f s cs
      (c :: r.1, r.2)

/-- Descend the path's first segment: for each child with that tag (in
order), try the continuation on its children; the first success wins. -/
def editNode (rec : List Element → List Element × Bool) (s : String) :
    List Element → List Element × Bool
  | [] => ([], false)
  | c :: cs =>
    if c.tag = s then
      let r := rec c.children
      if r.2 then (c.withChildren r.1 :: cs, true)
      else
        let r2 := editNode rec s cs
        (c :: r2.1, r2.2)
    else
      let r2 := editNode rec s cs
      (c :: r2.1, r2.2)

/-- Apply `f` to the first element reached by the path inside a children
list (the element ElementTree `find` would return), reporting success.
An empty path is never produced by the source's path strings. -/
def editInList (f : Element → Element) : List String → List Element → List Element × Bool
  | [], cs => (cs, false)
  | [s], cs => editLeaf f s cs
  | s :: s2 :: rest, cs => editNode (editInList f (s2 :: rest)) s cs

/-- Mutate (functionally) the first element found at a path, as Python code
holding a reference from `find` does; identity when the path has no match. -/
def editAt (segs : List String) (f : Element → Element) (e : Element) : Element :=
  match segs with
  | [] => f e
  | _ :: _ => e.withChildren (editInList f segs e.children).1

/-- Mutate every element found at a path, as Python code iterating over a
`findall` snapshot and mutating each element in place does. -/
def editAllAt (f : Element → Element) : List String → Element → Element
  | [], e => f e
  | s :: rest, e =>
    e.withChildren (e.children.map (fun c => if c.tag = s then editAllAt f rest c else c))

/-- Remove the first list entry satisfying the predicate. -/
def removeFirstBy (p : Element → Bool) : List Element → List Element
  | [] => []
  | c :: cs => if p c then cs else c :: removeFirstBy p cs

/-- Apply `f` to the last entry of a list. -/
def mapLast (f : Element → Element) : List Element → List Element
  | [] => []
  | [c] => [f c]
  | c :: c2 :: cs => c :: mapLast f (c2 :: cs)

/-- Python `d[k] = v` on an insertion-ordered dict modelled as a pair list. -/
def dictInsert (d : List (String × Element)) (k : String) (v : Element) :
    List (String × Element) :=
  if d.any (fun p => p.1 = k) then d.map (fun p => if p.1 = k then (k, v) else p)
  else d ++ [(k, v)]

/-- Python `d.get(k)` on the dict model. -/
def dictGet (d : List (String × Element)) (k : String) : Option Element :=
  (d.find? (fun p => p.1 = k)).map (fun p => p.2)

/-- Python's `for s in elt: if cond(s): elt.remove(s)` over the live child
list: the iterator keeps its index while removal shifts the list left, so
the entry right after a removed one is kept without being examined. -/
def pyLiveRemove (p : Element → Bool) : List Element → List Element
  | [] => []
  | [x] => if p x then [] else [x]
  | x :: y :: rest =>
    if p x then y :: pyLiveRemove p rest
    else x :: pyLiveRemove p (y :: rest)

/-- Strip a namespace qualifier from one tag:
`'\x7buri\x7dname'.split('\x7d')[1]`. -/
def stripTag (t : String) : String :=
  if pyStartsWith t "\x7b" then ((pySplitOn t "\x7d").drop 1).headD "" else t

mutual

/-- The `_remove_acbf_xml_namespaces` pass applied over the whole tree. -/
def stripNs : Element → Element
  | .mk t a x cs => .mk (stripTag t) a x (stripNsL cs)

/-- The namespace strip pass over a forest. -/
def stripNsL : List Element → List Element
  | [] => []
  | c :: cs => stripNs c :: stripNsL cs

end

mutual

/-- Every tag in the tree avoids a namespace brace (so the namespace strip
pass is the identity on it). -/
def noNsTags : Element → Bool
  | .mk t _ _ cs => !pyStartsWith t "\x7b" && noNsTagsL cs

/-- The no-namespace-tag check over a forest. -/
def noNsTagsL : List Element → Bool
  | [] => true
  | c :: cs => noNsTags c && noNsTagsL cs

end

/-- One page of the normalized record (`comicapi.genericmetadata.PageMetadata`),
restricted to the fields the source reads or writes. -/
structure PageMetadata where
  filename : String
  display_index : Nat
  archive_index : Nat
  bookmark : String
  type : String
deriving Repr, DecidableEq, Inhabited

/-- One credit entry of the normalized record: person, role, language.
The language is `none` for Python `None`; the empty string is a distinct
value (`add_credit`'s default). -/
structure Credit where
  person : String
  role : String
  language : Option String
deriving Repr, DecidableEq, Inhabited

/-- The normalized, schema-agnostic record (`comicapi.genericmetadata.
GenericMetadata`), restricted to the attributes this adapter touches.
Python sets are modelled as insertion-ordered duplicate-free lists (set
iteration order is unspecified in Python; no claim depends on it).
`volume` is kept as an optional string, matching what the read side stores
(`sequence/@volume`); the write side only ever applies `str(...)` to it.
`year` is kept numeric, which is what the write side's arithmetic needs;
the read side's four-digit fallback stores the matched digits' value. -/
structure GenericMetadata where
  series : Option String := none
  issue : Option String := none
  title : Option String := none
  volume : Option String := none
  genres : List String := []
  description : Option String := none
  notes : Option String := none
  publisher : Option String := none
  imprint : Option String := none
  day : Option Int := none
  month : Option Int := none
  year : Option Int := none
  language : Option String := none
  web_links : List String := []
  manga : Option String := none
  maturity_rating : Option String := none
  scan_info : Option String := none
  tags : List String := []
  pages : List PageMetadata := []
  characters : List (Option String) := []
  teams : List (Option String) := []
  locations : List (Option String) := []
  credits : List Credit := []
  data_origin : Option String := none
  issue_id : Option String := none
  series_id : Option String := none
  identifier : Option String := none
  rights : Option String := none
  is_empty : Bool := true
deriving Repr, DecidableEq, Inhabited

/-- The empty normalized record, `GenericMetadata()`. -/
def GenericMetadata.empty : GenericMetadata := {}

/-- External collaborator functions consumed by the adapter (`comicapi.utils`
and `comicapi._url`); the spec specifies them only at their boundary, so the
embedding is parameterized over them. -/
structure Collab where
  xlate : Option String → Option String
  parse_date_str : Option String → Option Int × Option Int × Option Int
  parse_url : Option String → String
  splitComma : Option String → List String
  get_page_name_list : List String → List String

/-- A trivial concrete collaborator instance used for witnesses and
counterexamples (any instance would do for the claims settled with it). -/
def trivCollab : Collab where
  xlate := fun s => s
  parse_date_str := fun _ => (none, none, none)
  parse_url := fun s => s.getD ""
  splitComma := fun s => match s with
    | none => []
    | some s => if s = "" then [] else (pySplitOn s ",").map (fun p => String.mk (trimL p.data))
  get_page_name_list := fun l => l

/-- The credit-role synonym tables of `GenericMetadata` (external vocabulary,
consumed as given). -/
structure SynTables where
  writer : List String
  penciller : List String
  inker : List String
  colorist : List String
  letterer : List String
  cover : List String
  editor : List String
  translator : List String

/-- A small concrete synonym-table instance for witnesses and
counterexamples. -/
def trivSyn : SynTables where
  writer := ["writer"]
  penciller := ["penciller"]
  inker := ["inker"]
  colorist := ["colorist"]
  letterer := ["letterer"]
  cover := ["cover"]
  editor := ["editor"]
  translator := ["translator"]

/-- The two ACBF version namespaces the adapter supports (`self.namespaces`). -/
def namespaces : List String :=
  ["http://www.acbf.info/xml/acbf/1.1", "http://www.acbf.info/xml/acbf/1.2"]

/-- The namespace written on output (`ns_url`), the newer supported version. -/
def ns12 : String := "http://www.acbf.info/xml/acbf/1.2"

/-- The recognized root tags: each supported namespace wrapped in braces
followed by the schema name, plus the plain schema name (`acbf_tags`). -/
def acbf_tags : List String :=
  namespaces.map (fun ns => "\x7b" ++ ns ++ "\x7d" ++ "ACBF") ++ ["ACBF"]

/-- The path of the `book-info` container, which the source holds as the
`book_info` reference; every mutation through that reference is modelled as
an edit at this path (the first match, which stays the same element
throughout since no step ever inserts an earlier `meta-data`/`book-info`). -/
def biP : List String := ["meta-data", "book-info"]

/-- Inner helper `add_element`: build a fresh child with optional text
(skipped when falsy, as `if text:` does) and the given attribute pairs. -/
def mkChild (tag : String) (text : Option String) (attribs : List (String × String)) :
    Element :=
  .mk tag attribs (match text with
    | some t => if t = "" then none else some t
    | none => none) []

/-- Append one child to the element at a path. -/
def appendAt (segs : List String) (child : Element) (root : Element) : Element :=
  editAt segs (fun e => e.withChildren (e.children ++ [child])) root

/-- Inner helper `add_path`/`get_or_create_element`: walk the path prefix by
prefix, creating each missing segment under the first match of its parent
prefix. -/
def ensureAux (done : List String) : List String → Element → Element
  | [], root => root
  | s :: rest, root =>
    let pref := done ++ [s]
    let root := if (findPath pref root).isSome then root
                else appendAt done (.mk s [] none []) root
    ensureAux (done ++ [s]) rest root

/-- Resolve-or-create for a slash path (`add_path`). -/
def ensurePath (root : Element) (segs : List String) : Element :=
  ensureAux [] segs root

/-- Inner helper `clear_element`: remove every direct child with the given
tag from the first element at the parent path (no-op when the parent is
missing, matching the `None` check). -/
def clearElementAt (parentSegs : List String) (name : String) (root : Element) : Element :=
  editAt parentSegs
    (fun par => par.withChildren (par.children.filter (fun c => ¬ c.tag = name))) root

/-- The text/attribute mutation `modify_element` applies to the found or
created leaf. -/
def modifySet (value : String) (attribs : List (String × String)) (clear_attribs : Bool)
    (e : Element) : Element :=
  let e := if clear_attribs then Element.mk e.tag [] e.text e.children else e
  let e := Element.mk e.tag e.attrib (some value) e.children
  attribs.foldl (fun acc kv => acc.setAttr kv.1 kv.2) e

/-- Inner helper `modify_element`: ensure the parent path exists, create the
leaf under the first-found parent when absent, then set its text, optionally
clear its attributes, and merge the given attribute pairs. -/
def modify_element (segs : List String) (value : String)
    (attribs : List (String × String)) (clear_attribs : Bool) (root : Element) : Element :=
  let parentSegs := segs.dropLast
  let name := segs.getLastD ""
  let root := ensureAux [] parentSegs root
  let root := if (findPath segs root).isSome then root
              else appendAt parentSegs (.mk name [] none []) root
  editAt segs (modifySet value attribs clear_attribs) root

/-- Inner helper `add_credit`: split the person's name on whitespace into
first/middle/last or nickname, returning the `author` element to append, or
`none` when there is nothing to add (empty split). -/
def add_credit_elt (person role : String) (lang : Option String) : Option Element :=
  let parts := pySplitWs person
  let fml : Option String × Option String × Option String × Option String :=
    match parts with
    | [] => (none, none, none, none)
    | [n] => (none, none, none, some n)
    | [f, l] => (some f, none, some l, none)
    | f :: m :: l :: _ => (some f, some m, some l, none)
  let first := fml.1
  let middle := fml.2.1
  let last := fml.2.2.1
  let nick := fml.2.2.2
  if ¬ (truthyS first ∨ truthyS last ∨ truthyS nick) then none
  else
    some (.mk "author"
      ([("activity", role)] ++ (match lang with
        | some lg => [("lang", lg)]
        | none => []))
      none
      ((match first with | some x => [mkChild "first-name" (some x) []] | none => []) ++
       (match middle with | some x => [mkChild "middle-name" (some x) []] | none => []) ++
       (match last with | some x => [mkChild "last-name" (some x) []] | none => []) ++
       (match nick with | some x => [mkChild "nickname" (some x) []] | none => [])))

/-- The `if/elif` chain over `credit.role.casefold()` in the credits loop:
the schema role label and the language argument passed to `add_credit`. -/
def roleDispatch (syn : SynTables) (credit : Credit) : String × Option String :=
  let r := pyCasefold credit.role
  if r ∈ syn.writer then ("Writer", credit.language)
  else if r = "adapter" then ("Adapter", credit.language)
  else if r = "artist" then ("Artist", none)
  else if r ∈ syn.penciller then ("Penciller", none)
  else if r ∈ syn.inker then ("Inker", none)
  else if r ∈ syn.colorist then ("Colorist", none)
  else if r = "photographer" ∨ r = "photo" then ("Photographer", none)
  else if r ∈ syn.letterer then ("Letterer", credit.language)
  else if r ∈ syn.cover then ("CoverArtist", none)
  else if r ∈ syn.editor then ("Editor", credit.language)
  else if r = "assistant editor" then ("Assistant Editor", credit.language)
  else if r ∈ syn.translator then ("Translator", credit.language)
  else ("Other", credit.language)

/-- Credits section: each credit entry appends one `author` element to
`book-info` (after the wholesale wipe done by `clear_element`). -/
def creditsStep (syn : SynTables) (md : GenericMetadata) (root : Element) : Element :=
  md.credits.foldl (fun r credit =>
    let rl := roleDispatch syn credit
    match add_credit_elt credit.person rl.1 rl.2 with
    | some a => appendAt biP a r
    | none => r) root

/-- Series/issue/volume section.  When exactly one `sequence` element exists
the source calls `.clear()` on the Python list returned by `findall`, which
does not touch the tree; otherwise it removes from `book-info` every
`sequence` child whose text equals the new issue, then appends a fresh
`sequence` element either way. -/
def sequenceStep (md : GenericMetadata) (root : Element) : Element :=
  if truthyS md.series then
    let sequence := findAllPath ["meta-data", "book-info", "sequence"] root
    let root :=
      if sequence.length = 1 then root
      else editAt biP (fun bi => bi.withChildren (bi.children.filter
        (fun seq => ¬ (seq.tag = "sequence" ∧ seq.text = md.issue)))) root
    let elt : Element :=
      .mk "sequence"
        ([("title", md.series.getD "")] ++
          (if truthyS md.volume then [("volume", md.volume.getD "")] else []))
        (if truthyS md.issue then md.issue else none) []
    appendAt biP elt root
  else root

/-- Title section: clear (keeping the empty element) any `book-title` with
no `lang` or `lang='en'`, then append the new title, tagged with the
record's language when set. -/
def titleStep (md : GenericMetadata) (root : Element) : Element :=
  if truthyS md.title then
    let root := editAllAt
      (fun t => if t.get "lang" = none ∨ t.get "lang" = some "en"
                then .mk t.tag [] none [] else t)
      ["meta-data", "book-info", "book-title"] root
    let elt : Element :=
      .mk "book-title"
        (if truthyS md.language then [("lang", md.language.getD "")] else [])
        (if md.title.getD "" = "" then none else md.title) []
    appendAt biP elt root
  else root

/-- The fixed genre allow-list. -/
def allow_genres : List String :=
  ["other", "adult", "adventure", "alternative", "artbook", "biography", "caricature",
   "children", "computer", "crime", "education", "fantasy", "history", "horror", "humor",
   "manga", "military", "mystery", "non-fiction", "politics", "real_life", "religion",
   "romance", "science_fiction", "sports", "superhero", "western"]

/-- The `match` attribute value to keep for a re-added genre: the first
snapshot `genre` element with that exact text, when its `match` attribute is
truthy, parsed as an integer; zero otherwise. -/
def genreMatchVal (cur_genres : List Element) (g : String) : Int :=
  match cur_genres.find? (fun cg => cg.text = some g) with
  | some cg => if truthyS (cg.get "match") then pyInt ((cg.get "match").getD "") else 0
  | none => 0

/-- Genre section: snapshot current `genre` elements (for their `match`
attributes), clear them, add `manga` to the record's genre set when the
manga flag starts with `yes`, then re-add every allow-listed genre; a genre
equal to the first snapshot element with that text keeps a positive numeric
`match` attribute.  Returns the updated record as well, since the source
mutates `md.genres` in place. -/
def genresStep (md : GenericMetadata) (root : Element) : Element × GenericMetadata :=
  let cur_genres := findAllPath ["meta-data", "book-info", "genre"] root
  let root := clearElementAt biP "genre" root
  let genres1 :=
    if (match md.manga with
        | some m => pyStartsWith (pyCasefold m) "yes"
        | none => false)
    then listAdd md.genres "manga" else md.genres
  let root := genres1.foldl (fun (r : Element) (g : String) =>
    let g := pyReplaceChar (pyCasefold g) ' ' '_'
    let g := if g = "historical" then "history" else g
    if g ∈ allow_genres then
      let mtch : Int := genreMatchVal cur_genres g
      if (0 : Int) < mtch then appendAt biP (mkChild "genre" (some g) [("match", toString mtch)]) r
      else appendAt biP (mkChild "genre" (some g) []) r
    else r) root
  (root, { md with genres := genres1 })

/-- Does an existing annotation already hold the description: either the same
paragraph sequence, or (when it has no children) the same raw text. -/
def annoMatches (d : String) (anno : Element) : Bool :=
  if !anno.children.isEmpty then
    let split_a := anno.children.map (fun a => a.text)
    let split_desc := pySplitOn d "\n\n"
    split_a.length = split_desc.length &&
      (split_desc.zip split_a).all (fun p => p.2 = some p.1)
  else anno.text = some d

/-- Description section: skip when an existing annotation matches; otherwise
append a new annotation of `p` paragraphs and, when the record has a
language, remove the first existing annotation carrying that exact language
and tag the new one with it.  The source scans
`meta-data/book-info/annotation` and removes through the `book_info`
reference; with a single `book-info` (always the case for first-found
elements) that is the first matching `book-info` child. -/
def descStep (md : GenericMetadata) (root : Element) : Element :=
  if truthyS md.description then
    let d := md.description.getD ""
    let cur_annos := findAllPath ["meta-data", "book-info", "annotation"] root
    let found := cur_annos.any (annoMatches d)
    if found then root
    else
      let elt : Element :=
        .mk "annotation" [] none ((pySplitOn d "\n\n").map (fun t => mkChild "p" (some t) []))
      let root := appendAt biP elt root
      if truthyS md.language then
        let lang := md.language.getD ""
        let root := editAt biP (fun bi => bi.withChildren
          (removeFirstBy (fun a => a.tag = "annotation" ∧ a.get "lang" = some lang)
            bi.children)) root
        editAt biP (fun bi => bi.withChildren
          (mapLast (fun a => a.setAttr "lang" lang) bi.children)) root
      else root
  else root

/-- Web-links section: drop every `databaseref` of type `URL`
(case-insensitively), then append one per link. -/
def weblinksStep (md : GenericMetadata) (root : Element) : Element :=
  if md.web_links ≠ [] then
    let dbname := md.data_origin.getD "Unknown"
    let root := editAt biP (fun bi => bi.withChildren (bi.children.filter
      (fun dbref => ¬ (dbref.tag = "databaseref" ∧
        pyCasefold ((dbref.get "type").getD "") = "url")))) root
    md.web_links.foldl (fun r web =>
      appendAt biP (mkChild "databaseref" (some web) [("type", "URL"), ("dbname", dbname)]) r)
      root
  else root

/-- Maturity-rating section: append a `content-rating` only when no existing
one has exactly that text. -/
def maturityStep (md : GenericMetadata) (root : Element) : Element :=
  if truthyS md.maturity_rating then
    let found := match findPath biP root with
      | some bi => bi.children.any
          (fun rate => rate.tag = "content-rating" ∧ rate.text = md.maturity_rating)
      | none => false
    if found then root
    else appendAt biP (mkChild "content-rating" md.maturity_rating []) root
  else root

/-- Tags section: replace the single `keywords` element with the
comma-joined tag set. -/
def tagsStep (md : GenericMetadata) (root : Element) : Element :=
  if md.tags ≠ [] then
    modify_element ["meta-data", "book-info", "keywords"]
      (joinWith ", " md.tags) [] false root
  else root

/-- Characters/teams/locations sections: create the container, clear it
(attributes included, as `Element.clear` does), re-add one `name` child per
item. -/
def namesStep (containerTag : String) (names : List (Option String)) (root : Element) :
    Element :=
  if names ≠ [] then
    let root := ensurePath root (biP ++ [containerTag])
    editAt (biP ++ [containerTag])
      (fun e => .mk e.tag [] none (names.map (fun c => mkChild "name" c [])))
      root
  else root

/-- Issue-id/series-id section, including the source's nesting: the
series-id duplicate check sits inside the issue-id branch, where the type
can never also be a series-id type, so `add_series` is never cleared. -/
def idsStep (md : GenericMetadata) (root : Element) : Element :=
  if truthyS md.issue_id ∨ truthyS md.series_id then
    let dbname := md.data_origin.getD "Unknown"
    let dbrefs : List Element := match findPath biP root with
      | some bi => bi.children.filter (fun (d : Element) => d.tag = "databaseref")
      | none => []
    let flags := dbrefs.foldl (fun (acc : Bool × Bool) (dbref : Element) =>
      if pyCasefold ((dbref.get "type").getD "") ∈ ["issueid", "issue_id", "issue-id"] then
        let ai := if md.issue_id ≠ none ∧ dbref.text = md.issue_id then false else acc.1
        let as2 :=
          if pyCasefold ((dbref.get "type").getD "") ∈ ["seriesid", "series_id", "series-id"]
          then (if md.series_id ≠ none ∧ dbref.text = md.series_id then false else acc.2)
          else acc.2
        (ai, as2)
      else acc) (true, true)
    let root :=
      if truthyS md.issue_id ∧ flags.1 then
        appendAt biP (mkChild "databaseref" md.issue_id
          [("type", "IssueID"), ("dbname", dbname)]) root
      else root
    if truthyS md.series_id ∧ flags.2 then
      appendAt biP (mkChild "databaseref" md.series_id
        [("type", "SeriesID"), ("dbname", dbname)]) root
    else root
  else root

/-- ISBN section. -/
def isbnStep (md : GenericMetadata) (root : Element) : Element :=
  if truthyS md.identifier then
    modify_element ["meta-data", "publish-info", "isbn"] (md.identifier.getD "") [] false root
  else root

/-- Publisher section: replace with imprint attribute, or replace clearing
attributes, or remove the element when the record has no publisher. -/
def publisherStep (md : GenericMetadata) (root : Element) : Element :=
  if truthyS md.publisher then
    if truthyS md.imprint then
      modify_element ["meta-data", "publish-info", "publisher"] (md.publisher.getD "")
        [("imprint", md.imprint.getD "")] false root
    else
      modify_element ["meta-data", "publish-info", "publisher"] (md.publisher.getD "")
        [] true root
  else clearElementAt ["meta-data", "publish-info"] "publisher" root

/-- Publish-date section: two-digit-year normalization, then the zero-padded
date written into both the text and the `value` attribute. -/
def dateStep (md : GenericMetadata) (root : Element) : Element :=
  if truthyI md.year then
    let day := pyOrI md.day 1
    let month := pyOrI md.month 1
    let year := md.year.getD 0
    let year := if year < 50 then 2000 + year else if year < 100 then 1900 + year else year
    let pub_date := pad4 year ++ "-" ++ pad2 month ++ "-" ++ pad2 day
    modify_element ["meta-data", "publish-info", "publish-date"] pub_date
      [("value", pub_date)] false root
  else root

/-- Notes section: replace the `history` container's children with one `p`
per newline-split line (the clear also wipes its attributes). -/
def notesStep (md : GenericMetadata) (root : Element) : Element :=
  if truthyS md.notes then
    let root := ensurePath root ["meta-data", "document-info", "history"]
    editAt ["meta-data", "document-info", "history"]
      (fun e => .mk e.tag [] none
        ((pySplitOn (md.notes.getD "") "\n").map (fun n => mkChild "p" (some n) [])))
      root
  else root

/-- Scan-info section: remove marker-prefixed paragraphs from the live child
list (with the iterator-skip semantics of removing while iterating), then
append the re-marked paragraph. -/
def scanStep (md : GenericMetadata) (root : Element) : Element :=
  if truthyS md.scan_info then
    let root := ensurePath root ["meta-data", "document-info", "source"]
    let root := editAt ["meta-data", "document-info", "source"]
      (fun src => src.withChildren (pyLiveRemove
        (fun s => match s.text with
          | some t => t ≠ "" ∧ pyStartsWith t "[Scan]"
          | none => false) src.children)) root
    appendAt ["meta-data", "document-info", "source"]
      (mkChild "p" (some ("[Scan]" ++ md.scan_info.getD "")) []) root
  else root

/-- Stable insertion of an element into a list sorted by a numeric key
(before the first strictly-later entry, after equal keys seen earlier). -/
def insByKey {α : Type} (key : α → Nat) (x : α) : List α → List α
  | [] => [x]
  | y :: ys => if key x ≤ key y then x :: y :: ys
               else y :: insByKey key x ys

/-- Python `sorted(l, key=key)`: a stable sort by the key.  Python's Timsort
and this insertion sort agree extensionally, both being stable sorts for
the same key. -/
def pySortedByKey {α : Type} (key : α → Nat) (l : List α) : List α :=
  l.foldr (insByKey key) []

/-- Inner helper `add_page`: reuse a matched existing page element (dropping
its no-lang/`en` titles when the record page has a bookmark) or build a
minimal fresh one; add the bookmark title (tagged with the record language
when set); retag as `coverpage` into `book-info` for position zero, else
append to `body`. -/
def add_page (lang : Option String) (page : PageMetadata) (old : Option Element)
    (is_cover : Bool) (root : Element) : Element :=
  let xml_page : Element :=
    match old with
    | some xp =>
      if page.bookmark ≠ "" then
        xp.withChildren (xp.children.filter
          (fun t => ¬ (t.tag = "title" ∧ ((t.get "lang").getD "" = "en" ∨ (t.get "lang").getD "" = ""))))
      else xp
    | none => .mk "page" [] none [mkChild "image" none [("href", page.filename)]]
  let xml_page :=
    if page.bookmark ≠ "" then
      xml_page.withChildren (xml_page.children ++
        [mkChild "title" (some page.bookmark)
          (if truthyS lang then [("lang", lang.getD "")] else [])])
    else xml_page
  if is_cover then
    appendAt biP (.mk "coverpage" xml_page.attrib xml_page.text xml_page.children) root
  else appendAt ["body"] xml_page root

/-- The filename-to-element lookup built before the body is cleared: the
`coverpage` (retagged as a page) first, then every `body` page carrying an
`image/@href`. -/
def buildPageDict (root : Element) : List (String × Element) :=
  let d : List (String × Element) :=
    match findPath (biP ++ ["coverpage"]) root with
    | some cp =>
      (match (cp.children.find? (fun c => c.tag = "image")) with
       | some image =>
         match image.get "href" with
         | some href => dictInsert [] href (.mk "page" cp.attrib cp.text cp.children)
         | none => []
       | none => [])
    | none => []
  let bodyCh : List Element :=
    match findPath ["body"] root with
    | some b => b.children
    | none => []
  bodyCh.foldl (fun d b =>
    if b.tag = "page" then
      match b.children.find? (fun c => c.tag = "image") with
      | some image =>
        (match image.get "href" with
         | some href => dictInsert d href b
         | none => d)
      | none => d
    else d) d

/-- Pages section: create `body`, collect the page dictionary, remove the
`coverpage` from `book-info`, clear the body keeping its attributes, sort the
record's pages by display index (the source reassigns `md.pages`), and emit
each page — position zero into `book-info` as the cover, the rest into the
body. -/
def pagesStep (md : GenericMetadata) (root : Element) : Element × GenericMetadata :=
  let root := ensurePath root ["body"]
  let page_dict := buildPageDict root
  let root :=
    match findPath (biP ++ ["coverpage"]) root with
    | some _ => editAt biP (fun bi => bi.withChildren
        (removeFirstBy (fun c => c.tag = "coverpage") bi.children)) root
    | none => root
  let root := editAt ["body"] (fun b => .mk b.tag b.attrib none []) root
  let sortedPages := pySortedByKey (fun p => p.display_index) md.pages
  let root := (sortedPages.enum).foldl (fun r ip =>
    add_page md.language ip.2 (dictGet page_dict ip.2.filename) (ip.1 = 0) r) root
  (root, { md with pages := sortedPages })

/-- Serialization-time `ET.indent(root)` rewrites only inter-element
whitespace (text of elements that have children and no non-blank text, and
tails); no claim inspects whitespace, so it is modelled as the identity. -/
def indentTree (root : Element) : Element := root

/-- The base tree for a merge: parse-and-strip the existing document and
force the written namespace attribute, or build the fresh minimal root. -/
def initTree (xml : Option Element) : Element :=
  match xml with
  | some r => (stripNs r).setAttr "xmlns" ns12
  | none => .mk "ACBF" [("xmlns", ns12)] none []

/-- The write-side merge `_convert_metadata_to_xml`, sequencing every
field section in source order.  It returns the updated record as well,
because the source mutates `metadata.genres` and `metadata.pages` in place
(visible to a caller that writes the same object twice). -/
def convert_metadata_to_xml (syn : SynTables) (md : GenericMetadata)
    (xml : Option Element) : Element × GenericMetadata :=
  let root := initTree xml
  let root := ensurePath root ["meta-data", "book-info"]
  let root := clearElementAt biP "author" root
  let root := creditsStep syn md root
  let root := sequenceStep md root
  let root := titleStep md root
  let rmd := genresStep md root
  let root := rmd.1
  let md := rmd.2
  let root := descStep md root
  let root := weblinksStep md root
  let root := maturityStep md root
  let root := tagsStep md root
  let root := namesStep "characters" md.characters root
  let root := namesStep "teams" md.teams root
  let root := namesStep "locations" md.locations root
  let root := idsStep md root
  let root := ensurePath root ["meta-data", "publish-info"]
  let root := isbnStep md root
  let root := publisherStep md root
  let root := dateStep md root
  let root := notesStep md root
  let root := scanStep md root
  let rmd2 := pagesStep md root
  (indentTree rmd2.1, rmd2.2)

/-- Inner helper `get`: deep-find the first element with the tag anywhere in
the tree and return its text. -/
def get_deep (root : Element) (name : String) : Option String :=
  match (findAllDeep name root).head? with
  | some tg => tg.text
  | none => none

/-- Inner helper `get_with_lang`: over the direct `book-info` children with
the given tag, return the text of the first one whose `lang` attribute is
missing or equals the requested language; `None` when the list is empty or
nothing qualifies. -/
def get_with_lang (book_info : Option Element) (name : String) (lang : String) :
    Option String :=
  match book_info with
  | some bi =>
    let tags := bi.children.filter (fun t => t.tag = name)
    if tags.isEmpty then none
    else
      match tags.find? (fun t => t.get "lang" = none ∨ t.get "lang" = some lang) with
      | some t => t.text
      | none => none
  | none => none

/-- Inner helper `annotation_to_string`: join the truthy texts of the
paragraph children with blank lines, or use the element's own text; `None`
when nothing was collected. -/
def annoToStr (ele : Element) : Option String :=
  let anno : List String :=
    if !ele.children.isEmpty then
      ele.children.filterMap (fun a => match a.text with
        | some t => if t = "" then none else some t
        | none => none)
    else
      match ele.text with
      | some t => if t = "" then [] else [t]
      | none => []
  if !anno.isEmpty then some (joinWith "\n\n" anno) else none

/-- The description-selection loop over `annotation` elements: a missing
`lang` wins immediately (break), `en` overwrites and continues, anything
else only fills a still-empty description. -/
def descSelect : List Element → Option String → Option String
  | [], acc => acc
  | d :: rest, acc =>
    let lang := (d.get "lang").getD ""
    if lang = "" then annoToStr d
    else if lang = "en" then descSelect rest (annoToStr d)
    else if acc = none then descSelect rest (annoToStr d)
    else descSelect rest acc

/-- The credit reconstruction for one `author` element: name from
first/middle/last or nickname or first name alone (skipping the author
otherwise — but note a present middle name with falsy text leaves the name
empty while still adding the credit, as the source does), role from
`activity` with `coverartist` renamed, language from `lang` defaulting to
the empty string. -/
def authorCredit (n : Element) : Option Credit :=
  let first := n.children.find? (fun c => c.tag = "first-name")
  let middle := n.children.find? (fun c => c.tag = "middle-name")
  let last := n.children.find? (fun c => c.tag = "last-name")
  let nick := n.children.find? (fun c => c.tag = "nickname")
  let role0 := n.get "activity"
  let language := (n.get "lang").getD ""
  if truthyS role0 then
    let role := if pyCasefold (role0.getD "") = "coverartist" then "Cover" else role0.getD ""
    let ft := first.bind (fun e => e.text)
    let lt := last.bind (fun e => e.text)
    if first.isSome ∧ last.isSome ∧ truthyS ft ∧ truthyS lt then
      match middle with
      | none => some ⟨ft.getD "" ++ " " ++ lt.getD "", role, some language⟩
      | some mid =>
        if truthyS mid.text then
          some ⟨ft.getD "" ++ " " ++ (mid.text).getD "" ++ " " ++ lt.getD "",
                role, some language⟩
        else some ⟨"", role, some language⟩
    else if truthyS (nick.bind (fun e => e.text)) then
      some ⟨(nick.bind (fun e => e.text)).getD "", role, some language⟩
    else if truthyS ft then some ⟨ft.getD "", role, some language⟩
    else none
  else none

/-- The per-page title-selection loop: missing `lang` with truthy text wins
immediately, `en` overwrites, anything else only fills a still-empty title. -/
def pageTitleSel : List Element → String → String
  | [], t => t
  | x :: rest, t =>
    let lang := (x.get "lang").getD ""
    if lang = "" ∧ truthyS x.text then (x.text).getD ""
    else if lang = "en" ∧ truthyS x.text then pageTitleSel rest ((x.text).getD "")
    else if t = "" ∧ truthyS x.text then pageTitleSel rest ((x.text).getD "")
    else pageTitleSel rest t

/-- The archive index a filename resolves to: Python builds a dict in file
order, so a duplicated name keeps its last index. -/
def lastIdxOf (file_list : List String) (f : String) : Option Nat :=
  ((file_list.enum.filter (fun p => p.2 = f)).map (fun p => p.1)).getLast?

/-- Page decoding: the `coverpage` element (when present) prepended to the
`body/page` elements, each yielding filename (`image/@href`), display index
(its position), archive index (filename position in the archive list, else
the display position), and bookmark via title selection. -/
def pagesDecode (book_info root : Element) (file_list : List String) :
    List PageMetadata :=
  let pages_node := findAllPath ["body", "page"] root
  let pages_node :=
    match book_info.children.find? (fun c => c.tag = "coverpage") with
    | some cp => cp :: pages_node
    | none => pages_node
  pages_node.enum.map (fun ip =>
    let i := ip.1
    let page := ip.2
    let image := page.children.find? (fun c => c.tag = "image")
    let title := pageTitleSel (page.children.filter (fun c => c.tag = "title")) ""
    let filename := match image with
      | some img => (img.get "href").getD ""
      | none => ""
    let archive_index := match lastIdxOf file_list filename with
      | some k => k
      | none => i
    ⟨filename, i, archive_index, title, ""⟩)

/-- The `languages` lookup: `langs[0][0].get('lang')`, an `IndexError` when
the first `languages` element has no child. -/
def langDecode (book_info : Element) : Except String (Option String) :=
  match book_info.children.filter (fun t => t.tag = "languages") with
  | [] => .ok none
  | l0 :: _ =>
    match l0.children with
    | [] => .error "IndexError: list index out of range"
    | c0 :: _ => .ok (c0.get "lang")

/-- The read-side extraction `_convert_xml_to_metadata`.  Version gating
happens on the raw root tag; afterwards namespaces are stripped and, when
`meta-data/book-info` is missing, the still-empty record is returned.
Fields are computed path-by-path exactly as the source assigns them; the
record is assembled once, each field holding its final assigned value. -/
def convert_xml_to_metadata (c : Collab) (root0 : Element) (file_list : List String) :
    Except String GenericMetadata :=
  if root0.tag ∉ acbf_tags then
    if pyEndsWith root0.tag ("\x7d" ++ "ACBF") then
      .error ("Unknown ACBF version: " ++ stripBraces (removeSfx root0.tag "ACBF"))
    else .error "Not an ACBF file"
  else
    let root := stripNs root0
    match findPath ["meta-data", "book-info"] root with
    | none => .ok GenericMetadata.empty
    | some book_info =>
      let seqs := book_info.children.filter (fun t => t.tag = "sequence")
      let series0 : Option String := match seqs.head? with
        | some s0 => s0.get "title"
        | none => none
      let volume0 : Option String := match seqs.head? with
        | some s0 => s0.get "volume"
        | none => none
      let issue0 : Option String := match seqs.head? with
        | some s0 =>
          (match s0.text with
           | some t => if t = "" then none else some t
           | none => none)
        | none => none
      let title0 := c.xlate (get_with_lang (some book_info) "book-title" "en")
      let seriesTitle : Option String × Option String :=
        if series0 = none then (title0, none) else (series0, title0)
      let gEls := book_info.children.filter (fun t => t.tag = "genre")
      let manga : Option String :=
        if gEls.any (fun g => match g.text with
          | some t => t ≠ "" ∧ pyCasefold t = "manga"
          | none => false) then some "Yes" else none
      let genres := gEls.foldl (fun (acc : List String) g => match g.text with
        | some t => if t = "" then acc else listAdd acc (pyCasefold (pyReplaceChar t '_' ' '))
        | none => acc) []
      let desc := descSelect (book_info.children.filter (fun t => t.tag = "annotation")) none
      let pubEl := (findAllDeep "publisher" root).head?
      let publisher : Option String := match pubEl with
        | some p => c.xlate p.text
        | none => none
      let imprint : Option String := pubEl.bind (fun p => p.get "imprint")
      let pdEl := (findAllDeep "publish-date" root).head?
      let dmy : Option Int × Option Int × Option Int := match pdEl with
        | some pd => c.parse_date_str (pd.get "value")
        | none => (none, none, none)
      let year : Option Int :=
        if dmy.2.2 = none then
          match pdEl with
          | some pd =>
            if !pd.children.isEmpty then
              match pd.text with
              | some t =>
                if t.data.length ≥ 4 ∧ (t.data.take 4).all (fun ch => ch.isDigit)
                then some (pyInt (pyTakeN t 4)) else none
              | none => none
            else none
          | none => none
        else dmy.2.2
      langDecode book_info >>= fun language =>
      let maturity := c.xlate (get_deep root "content-rating")
      let tags := listDedup (c.splitComma (get_deep root "keywords"))
      let characters := (findAllPath ["characters", "name"] book_info).foldl
        (fun (acc : List (Option String)) c => listAdd acc c.text) []
      let teams := (findAllPath ["teams", "name"] book_info).foldl
        (fun (acc : List (Option String)) c => listAdd acc c.text) []
      let locations := (findAllPath ["locations", "name"] book_info).foldl
        (fun (acc : List (Option String)) c => listAdd acc c.text) []
      let webs := (book_info.children.filter (fun t => t.tag = "databaseref")).foldl
        (fun (acc : List String) dbref =>
          match dbref.get "type" with
          | some ty => if pyCasefold ty = "url" then acc ++ [c.parse_url dbref.text] else acc
          | none => acc) []
      let identifier := c.xlate (get_deep root "isbn")
      let credits := (book_info.children.filter (fun t => t.tag = "author")).foldl
        (fun (acc : List Credit) n => match authorCredit n with
          | some cr => acc ++ [cr]
          | none => acc) []
      let notes : Option String := match (findAllDeep "history" root).head? with
        | some h =>
          if !h.children.isEmpty then
            some (joinWith "\n" (h.children.filterMap (fun x => match x.text with
              | some t => if t = "" then none else some t
              | none => none)))
          else none
        | none => none
      let scan : Option String := match (findAllDeep "source" root).head? with
        | some src =>
          if !src.children.isEmpty then
            src.children.foldl (fun (acc : Option String) s => match s.text with
              | some t => if t ≠ "" ∧ pyStartsWith t "[Scan]" then some (pyDropN t 6) else acc
              | none => acc) none
          else none
        | none => none
      let pages := pagesDecode book_info root file_list
      .ok { series := seriesTitle.1, issue := issue0, title := seriesTitle.2,
            volume := volume0, genres := genres, description := desc, notes := notes,
            publisher := publisher, imprint := imprint,
            day := dmy.1, month := dmy.2.1, year := year, language := language,
            web_links := webs, manga := manga, maturity_rating := maturity,
            scan_info := scan, tags := tags, pages := pages,
            characters := characters, teams := teams, locations := locations,
            credits := credits, identifier := identifier, is_empty := false }

/-- The `_validate_bytes` check: parse (a `none` content stands for bytes
`ET.fromstring` rejects, including the empty bytes used as fallback) and
accept iff the root tag ends with the schema name. -/
def validate_bytes : Option Element → Bool
  | none => false
  | some root => pyEndsWith root.tag "ACBF"

/-- The archive collaborator: an ordered entry list (name, parsed content;
`none` content = bytes that fail XML parsing) and the named-file-support
flag.  Writes are assumed to succeed, as the adapter simply forwards the
archiver's boolean. -/
structure Archiver where
  files : List (String × Option Element)
  supports_files : Bool

def Archiver.get_filename_list (a : Archiver) : List String := a.files.map (fun p => p.1)

def Archiver.read_file (a : Archiver) (name : String) : Option Element :=
  match a.files.find? (fun p => p.1 = name) with
  | some p => p.2
  | none => none

def Archiver.write_file (a : Archiver) (name : String) (content : Option Element) :
    Archiver :=
  if a.files.any (fun p => p.1 = name) then
    { a with files := a.files.map (fun p => if p.1 = name then (name, content) else p) }
  else { a with files := a.files ++ [(name, content)] }

/-- The entry-location scan of `has_tags`: the first entry name ending in
`.acbf` (the value the source caches in `self.file`). -/
def find_acbf_file (a : Archiver) : Option String :=
  a.get_filename_list.find? (fun f => pyEndsWith f ".acbf")

/-- `supports_tags`: named-file storage support. -/
def supports_tags (a : Archiver) : Bool := a.supports_files

/-- `has_tags`: an `.acbf` entry was found, the archive supports files, and
the entry's content validates. -/
def has_tags (a : Archiver) : Bool :=
  match find_acbf_file a with
  | some f => supports_tags a && validate_bytes (a.read_file f)
  | none => false

/-- `read_tags`: when `has_tags` and the (re-read) entry still validates,
extract; any exception out of the extraction propagates (`Except.error`);
otherwise return the empty record. -/
def read_tags (c : Collab) (a : Archiver) : Except String GenericMetadata :=
  if has_tags a then
    match find_acbf_file a with
    | some f =>
      let metadata := a.read_file f
      if validate_bytes metadata then
        match metadata with
        | some root =>
          convert_xml_to_metadata c root (c.get_page_name_list a.get_filename_list)
        | none => .ok GenericMetadata.empty
      else .ok GenericMetadata.empty
    | none => .ok GenericMetadata.empty
  else .ok GenericMetadata.empty

/-- `write_tags`: when the archive supports files, use the existing entry as
merge base only when `has_tags` held (so a malformed entry yields an empty
base), default the entry name, convert, and overwrite the entry.  The
returned flag is the archiver's write result (modelled as success). -/
def write_tags (syn : SynTables) (md : GenericMetadata) (a : Archiver) :
    Bool × Archiver :=
  if supports_tags a then
    let xml : Option Element :=
      if has_tags a then a.read_file ((find_acbf_file a).getD "") else none
    let file := (find_acbf_file a).getD "comic_metadata.acbf"
    (true, a.write_file file (some (convert_metadata_to_xml syn md xml).1))
  else (false, a)

/-- Record for the double-write experiment: only a series id is set. -/
def c2md : GenericMetadata := { series_id := some "42" }

/-- First write of `c2md` against a fresh tree. -/
def c2tree1 : Element := (convert_metadata_to_xml trivSyn c2md none).1

/-- The record as mutated by the first write (the caller's object). -/
def c2md1 : GenericMetadata := (convert_metadata_to_xml trivSyn c2md none).2

/-- Second write of the same record against the first write's tree. -/
def c2tree2 : Element := (convert_metadata_to_xml trivSyn c2md1 (some c2tree1)).1

/-- Existing tree holding exactly one `sequence` element. -/
def c3tree : Element :=
  .mk "ACBF" [] none
    [.mk "meta-data" [] none
      [.mk "book-info" [] none
        [.mk "sequence" [("title", "Old")] (some "1") []]]]

/-- Record carrying the new series data for the single-sequence merge. -/
def c3md : GenericMetadata := { series := some "New", issue := some "2", volume := some "3" }

/-- The merge of `c3md` into `c3tree`. -/
def c3out : Element := (convert_metadata_to_xml trivSyn c3md (some c3tree)).1

/-- Archive whose `.acbf` entry is an ACBF document under an unsupported
namespace. -/
def c4archive : Archiver :=
  { files := [("m.acbf", some (.mk ("\x7bhttp://other\x7d" ++ "ACBF") [] none []))],
    supports_files := true }

/-- Concrete archive whose `.acbf` entry holds unparseable bytes. -/
def c4badArchive : Archiver := { files := [("b.acbf", none)], supports_files := true }

/-- Archive whose `.acbf` entry holds bytes that fail to parse as XML. -/
def c5archive : Archiver := { files := [("x.acbf", none)], supports_files := true }

/-- Record used for the malformed-entry write. -/
def c5md : GenericMetadata := { series_id := some "42" }

/-- A `book-title` element with an optional `lang` attribute, for the
language-selection scenarios. -/
def c6title (lang : Option String) (t : String) : Element :=
  .mk "book-title" (match lang with
    | some lg => [("lang", lg)]
    | none => []) (some t) []

/-- A `book-info` element holding the given title elements. -/
def c6bi (ts : List Element) : Element := .mk "book-info" [] none ts

/-- Archive whose `.acbf` entry parses to a root tagged `NotACBF`, which is
not this schema's root element. -/
def c7archive : Archiver :=
  { files := [("y.acbf", some (.mk "NotACBF" [] none []))], supports_files := true }

/-- Record with a present but zero year (day and month set). -/
def c8md : GenericMetadata := { day := some 5, month := some 6, year := some 0 }

/-- The write of `c8md` against a fresh tree. -/
def c8tree : Element := (convert_metadata_to_xml trivSyn c8md none).1

/-- The document of the scan-info scenarios: a `book-info` and a `source`
holding two paragraphs with the given texts. -/
def c9tree (s1 s2 : String) : Element :=
  .mk "ACBF" [] none
    [.mk "meta-data" [] none
      [.mk "book-info" [] none [],
       .mk "document-info" [] none
         [.mk "source" [] none
           [.mk "p" [] (some s1) [], .mk "p" [] (some s2) []]]]]

/-- The optional `publish-info` fragment. -/
def pubPart : Option (List Element) → List Element
  | some cs => [.mk "publish-info" [] none cs]
  | none => []

/-- The optional `document-info` fragment. -/
def docPart : Option (List Element) → List Element
  | some cs => [.mk "document-info" [] none cs]
  | none => []

/-- The optional `body` fragment. -/
def bodyPart : Option (List Element) → List Element
  | some cs => [.mk "body" [] none cs]
  | none => []

/-- The shape of every intermediate tree of a fresh-base merge. -/
structure TView where
  bi : List Element
  pub : Option (List Element)
  doc : Option (List Element)
  body : Option (List Element)

/-- The tree a view denotes. -/
def TView.build (v : TView) : Element :=
  .mk "ACBF" [("xmlns", ns12)] none
    (.mk "meta-data" [] none
       (.mk "book-info" [] none v.bi :: (pubPart v.pub ++ docPart v.doc))
     :: bodyPart v.body)

/-- The missing-leaf creation step of `add_path`: the child list extended
with an empty element when no child has the tag yet. -/
def ensureChildList (t : String) (l : List Element) : List Element :=
  if l.any (fun c => c.tag = t) then l else l ++ [Element.mk t [] none []]

/-- View mirror of the author wipe. -/
def vClearAuthors (v : TView) : TView :=
  { v with bi := v.bi.filter (fun c => ¬ c.tag = "author") }

/-- View mirror of the credits section. -/
def vCredits (syn : SynTables) (md : GenericMetadata) (v : TView) : TView :=
  md.credits.foldl (fun vv credit =>
    let rl := roleDispatch syn credit
    match add_credit_elt credit.person rl.1 rl.2 with
    | some a => { vv with bi := vv.bi ++ [a] }
    | none => vv) v

/-- View mirror of the sequence section. -/
def vSequence (md : GenericMetadata) (v : TView) : TView :=
  if truthyS md.series then
    let sequence := v.bi.filter (fun c => c.tag = "sequence")
    let bi2 := v.bi.filter (fun seq => ¬ (seq.tag = "sequence" ∧ seq.text = md.issue))
    let v := if sequence.length = 1 then v else { v with bi := bi2 }
    let elt : Element :=
      .mk "sequence"
        ([("title", md.series.getD "")] ++
          (if truthyS md.volume then [("volume", md.volume.getD "")] else []))
        (if truthyS md.issue then md.issue else none) []
    { v with bi := v.bi ++ [elt] }
  else v

/-- View mirror of the title section. -/
def vTitle (md : GenericMetadata) (v : TView) : TView :=
  if truthyS md.title then
    let bi2 := v.bi.map (fun c =>
      if c.tag = "book-title" then
        (if c.get "lang" = none ∨ c.get "lang" = some "en"
         then Element.mk c.tag [] none [] else c)
      else c)
    let v := { v with bi := bi2 }
    let elt : Element :=
      .mk "book-title"
        (if truthyS md.language then [("lang", md.language.getD "")] else [])
        (if md.title.getD "" = "" then none else md.title) []
    { v with bi := v.bi ++ [elt] }
  else v

/-- View mirror of the genre section. -/
def vGenres (md : GenericMetadata) (v : TView) : TView × GenericMetadata :=
  let cur_genres := v.bi.filter (fun c => c.tag = "genre")
  let v := { v with bi := v.bi.filter (fun c => ¬ c.tag = "genre") }
  let genres1 :=
    if (match md.manga with
        | some m => pyStartsWith (pyCasefold m) "yes"
        | none => false)
    then listAdd md.genres "manga" else md.genres
  let v := genres1.foldl (fun (vv : TView) (g : String) =>
    let g := pyReplaceChar (pyCasefold g) ' ' '_'
    let g := if g = "historical" then "history" else g
    if g ∈ allow_genres then
      let mtch : Int := genreMatchVal cur_genres g
      if (0 : Int) < mtch then
        { vv with bi := vv.bi ++ [mkChild "genre" (some g) [("match", toString mtch)]] }
      else { vv with bi := vv.bi ++ [mkChild "genre" (some g) []] }
    else vv) v
  (v, { md with genres := genres1 })

/-- View mirror of the description section. -/
def vDesc (md : GenericMetadata) (v : TView) : TView :=
  if truthyS md.description then
    let d := md.description.getD ""
    let cur_annos := v.bi.filter (fun c => c.tag = "annotation")
    let found := cur_annos.any (annoMatches d)
    if found then v
    else
      let elt : Element :=
        .mk "annotation" [] none ((pySplitOn d "\n\n").map (fun t => mkChild "p" (some t) []))
      let v := { v with bi := v.bi ++ [elt] }
      if truthyS md.language then
        let lang := md.language.getD ""
        let bi2 := removeFirstBy
          (fun a => a.tag = "annotation" ∧ a.get "lang" = some lang) v.bi
        let v := { v with bi := bi2 }
        { v with bi := mapLast (fun a => a.setAttr "lang" lang) v.bi }
      else v
  else v

/-- View mirror of the web-links section. -/
def vWeblinks (md : GenericMetadata) (v : TView) : TView :=
  if md.web_links ≠ [] then
    let dbname := md.data_origin.getD "Unknown"
    let bi2 := v.bi.filter (fun dbref => ¬ (dbref.tag = "databaseref" ∧
      pyCasefold ((dbref.get "type").getD "") = "url"))
    let v := { v with bi := bi2 }
    md.web_links.foldl (fun vv web =>
      { vv with bi := vv.bi ++
          [mkChild "databaseref" (some web) [("type", "URL"), ("dbname", dbname)]] }) v
  else v

/-- View mirror of the maturity-rating section. -/
def vMaturity (md : GenericMetadata) (v : TView) : TView :=
  if truthyS md.maturity_rating then
    let found := v.bi.any
      (fun rate => rate.tag = "content-rating" ∧ rate.text = md.maturity_rating)
    if found then v
    else { v with bi := v.bi ++ [mkChild "content-rating" md.maturity_rating []] }
  else v

/-- View mirror of `modify_element` under `book-info`. -/
def vModifyBi (name value : String) (attribs : List (String × String))
    (clear_attribs : Bool) (v : TView) : TView :=
  let bi2 := (editLeaf (modifySet value attribs clear_attribs) name
    (ensureChildList name v.bi)).1
  { v with bi := bi2 }

/-- View mirror of the tags section. -/
def vTags (md : GenericMetadata) (v : TView) : TView :=
  if md.tags ≠ [] then vModifyBi "keywords" (joinWith ", " md.tags) [] false v
  else v

/-- View mirror of the characters/teams/locations sections. -/
def vNames (containerTag : String) (names : List (Option String)) (v : TView) : TView :=
  if names ≠ [] then
    let bi2 := (editLeaf
        (fun e => Element.mk e.tag [] none (names.map (fun c => mkChild "name" c [])))
        containerTag (ensureChildList containerTag v.bi)).1
    { v with bi := bi2 }
  else v

/-- View mirror of the issue-id/series-id section (including the nested,
never-firing series check). -/
def vIds (md : GenericMetadata) (v : TView) : TView :=
  if truthyS md.issue_id ∨ truthyS md.series_id then
    let dbname := md.data_origin.getD "Unknown"
    let dbrefs := v.bi.filter (fun d => d.tag = "databaseref")
    let flags := dbrefs.foldl (fun (acc : Bool × Bool) (dbref : Element) =>
      if pyCasefold ((dbref.get "type").getD "") ∈ ["issueid", "issue_id", "issue-id"] then
        let ai := if md.issue_id ≠ none ∧ dbref.text = md.issue_id then false else acc.1
        let as2 :=
          if pyCasefold ((dbref.get "type").getD "") ∈ ["seriesid", "series_id", "series-id"]
          then (if md.series_id ≠ none ∧ dbref.text = md.series_id then false else acc.2)
          else acc.2
        (ai, as2)
      else acc) (true, true)
    let v :=
      if truthyS md.issue_id ∧ flags.1 then
        { v with bi := v.bi ++ [mkChild "databaseref" md.issue_id
            [("type", "IssueID"), ("dbname", dbname)]] }
      else v
    if truthyS md.series_id ∧ flags.2 then
      { v with bi := v.bi ++ [mkChild "databaseref" md.series_id
          [("type", "SeriesID"), ("dbname", dbname)]] }
    else v
  else v

/-- View mirror of `get_or_create_element('meta-data/publish-info')`. -/
def vEnsurePub (v : TView) : TView := { v with pub := some (v.pub.getD []) }

/-- View mirror of `modify_element` under `publish-info`. -/
def vModifyPub (name value : String) (attribs : List (String × String))
    (clear_attribs : Bool) (v : TView) : TView :=
  let cs2 := (editLeaf (modifySet value attribs clear_attribs) name
    (ensureChildList name (v.pub.getD []))).1
  { v with pub := some cs2 }

/-- View mirror of the ISBN section. -/
def vIsbn (md : GenericMetadata) (v : TView) : TView :=
  if truthyS md.identifier then vModifyPub "isbn" (md.identifier.getD "") [] false v
  else v

/-- View mirror of the publisher section. -/
def vPublisher (md : GenericMetadata) (v : TView) : TView :=
  if truthyS md.publisher then
    if truthyS md.imprint then
      vModifyPub "publisher" (md.publisher.getD "") [("imprint", md.imprint.getD "")] false v
    else vModifyPub "publisher" (md.publisher.getD "") [] true v
  else
    let cs2 := (v.pub.getD []).filter (fun c => ¬ c.tag = "publisher")
    { v with pub := some cs2 }

/-- View mirror of the publish-date section. -/
def vDate (md : GenericMetadata) (v : TView) : TView :=
  if truthyI md.year then
    let day := pyOrI md.day 1
    let month := pyOrI md.month 1
    let year := md.year.getD 0
    let year := if year < 50 then 2000 + year else if year < 100 then 1900 + year else year
    let pub_date := pad4 year ++ "-" ++ pad2 month ++ "-" ++ pad2 day
    vModifyPub "publish-date" pub_date [("value", pub_date)] false v
  else v

/-- View mirror of `add_path('meta-data/document-info/<t>')`. -/
def vEnsureDocChild (t : String) (v : TView) : TView :=
  { v with doc := some (ensureChildList t (v.doc.getD [])) }

/-- View mirror of the notes section. -/
def vNotes (md : GenericMetadata) (v : TView) : TView :=
  if truthyS md.notes then
    let v := vEnsureDocChild "history" v
    let d2 := (editLeaf
        (fun e => Element.mk e.tag [] none
          ((pySplitOn (md.notes.getD "") "\n").map (fun n => mkChild "p" (some n) [])))
        "history" (v.doc.getD [])).1
    { v with doc := some d2 }
  else v

/-- View mirror of the scan-info section. -/
def vScan (md : GenericMetadata) (v : TView) : TView :=
  if truthyS md.scan_info then
    let v := vEnsureDocChild "source" v
    let d2 := (editLeaf
        (fun src => src.withChildren (pyLiveRemove
          (fun s => match s.text with
            | some t => t ≠ "" ∧ pyStartsWith t "[Scan]"
            | none => false) src.children))
        "source" (v.doc.getD [])).1
    let v := { v with doc := some d2 }
    let d3 := (editLeaf
        (fun e => e.withChildren (e.children ++
          [mkChild "p" (some ("[Scan]" ++ md.scan_info.getD "")) []]))
        "source" (v.doc.getD [])).1
    { v with doc := some d3 }
  else v

/-- View mirror of `buildPageDict`. -/
def vPageDict (v : TView) : List (String × Element) :=
  let d : List (String × Element) :=
    match (v.bi.filter (fun c => c.tag = "coverpage")).head? with
    | some cp =>
      (match cp.children.find? (fun c => c.tag = "image") with
       | some image =>
         match image.get "href" with
         | some href => dictInsert [] href (.mk "page" cp.attrib cp.text cp.children)
         | none => []
       | none => [])
    | none => []
  (v.body.getD []).foldl (fun d b =>
    if b.tag = "page" then
      match b.children.find? (fun c => c.tag = "image") with
      | some image =>
        (match image.get "href" with
         | some href => dictInsert d href b
         | none => d)
      | none => d
    else d) d

/-- View mirror of `add_page`. -/
def vAddPage (lang : Option String) (page : PageMetadata) (old : Option Element)
    (is_cover : Bool) (vv : TView) : TView :=
  let xml_page : Element :=
    match old with
    | some xp =>
      if page.bookmark ≠ "" then
        xp.withChildren (xp.children.filter
          (fun t => ¬ (t.tag = "title" ∧
            ((t.get "lang").getD "" = "en" ∨ (t.get "lang").getD "" = ""))))
      else xp
    | none => .mk "page" [] none [mkChild "image" none [("href", page.filename)]]
  let xml_page :=
    if page.bookmark ≠ "" then
      xml_page.withChildren (xml_page.children ++
        [mkChild "title" (some page.bookmark)
          (if truthyS lang then [("lang", lang.getD "")] else [])])
    else xml_page
  if is_cover then
    let cover : Element := .mk "coverpage" xml_page.attrib xml_page.text xml_page.children
    { vv with bi := vv.bi ++ [cover] }
  else
    let b2 := (vv.body.getD []) ++ [xml_page]
    { vv with body := some b2 }

/-- View mirror of the pages section. -/
def vPages (md : GenericMetadata) (v : TView) : TView × GenericMetadata :=
  let v := { v with body := some (v.body.getD []) }
  let page_dict := vPageDict v
  let v := match (v.bi.filter (fun c => c.tag = "coverpage")).head? with
    | some _ => { v with bi := removeFirstBy (fun c => c.tag = "coverpage") v.bi }
    | none => v
  let v := { v with body := some [] }
  let sortedPages := pySortedByKey (fun p => p.display_index) md.pages
  let v := (sortedPages.enum).foldl (fun vv ip =>
    vAddPage md.language ip.2 (dictGet page_dict ip.2.filename) (ip.1 = 0) vv) v
  (v, { md with pages := sortedPages })

/-- The whole fresh-base pipeline at the view level. -/
def viewPipeline (syn : SynTables) (md : GenericMetadata) : TView × GenericMetadata :=
  let v : TView := ⟨[], none, none, none⟩
  let v := vClearAuthors v
  let v := vCredits syn md v
  let v := vSequence md v
  let v := vTitle md v
  let vm := vGenres md v
  let v := vm.1
  let md := vm.2
  let v := vDesc md v
  let v := vWeblinks md v
  let v := vMaturity md v
  let v := vTags md v
  let v := vNames "characters" md.characters v
  let v := vNames "teams" md.teams v
  let v := vNames "locations" md.locations v
  let v := vIds md v
  let v := vEnsurePub v
  let v := vIsbn md v
  let v := vPublisher md v
  let v := vDate md v
  let v := vNotes md v
  let v := vScan md v
  vPages md v

/-- The non-`book-info` components of a view, for tracking which sections
leave them unchanged. -/
def TView.rest (v : TView) : Option (List Element) × Option (List Element) × Option (List Element) :=
  (v.pub, v.doc, v.body)

/-- The two `book-info` child tags the write never creates but whose absence
the read side depends on (`coverpage` reconciliation and the `languages`
lookup). -/
def biSafe (e : Element) : Prop :=
  ¬ e.tag = "coverpage" ∧ ¬ e.tag = "languages" ∧ ¬ pyStartsWith e.tag "\x7b" = true

/-- C2: writing a record twice is claimed idempotent for genre, author and
databaseref counts.  Genre and author counts indeed stay equal, but the
database-reference count grows from one to two: the second write appends a
duplicate SeriesID reference because the series-id duplicate check is
nested inside the issue-id branch of `_convert_metadata_to_xml` (lines
495-510), where it can never fire.  This contradicts the dedup intent the
code itself expresses (`Could check 'dbname' too but chances of colliding
IDs ... seems small`), so the code, not the claim, is wrong. -/
theorem c2_second_write_grows_seriesid :
    (findAllPath ["meta-data", "book-info", "genre"] c2tree1).length =
      (findAllPath ["meta-data", "book-info", "genre"] c2tree2).length ∧
    (findAllPath ["meta-data", "book-info", "author"] c2tree1).length =
      (findAllPath ["meta-data", "book-info", "author"] c2tree2).length ∧
    (findAllPath ["meta-data", "book-info", "databaseref"] c2tree1).length = 1 ∧
    (findAllPath ["meta-data", "book-info", "databaseref"] c2tree2).length = 2 ∧
    (findAllPath ["meta-data", "book-info", "databaseref"] c2tree2).map
        (fun e => (e.text, e.get "type")) =
      [(some "42", some "SeriesID"), (some "42", some "SeriesID")] :=
  ⟨rfl, rfl, rfl, rfl, rfl⟩

/-- C3: with exactly one existing `sequence` element the claim (and the
source's own comment, `If there is only one sequence field, replace it`)
says the element is cleared and rewritten, leaving exactly one `sequence`
holding the new data.  The code instead calls `.clear()` on the Python list
returned by `findall`, which does not touch the tree, so the old element
survives and a second one is appended. -/
theorem c3_single_sequence_not_replaced :
    (findAllPath ["meta-data", "book-info", "sequence"] c3out).length = 2 ∧
    (findAllPath ["meta-data", "book-info", "sequence"] c3out).map
        (fun e => (e.text, e.get "title", e.get "volume")) =
      [(some "1", some "Old", none), (some "2", some "New", some "3")] :=
  ⟨rfl, rfl⟩

/-- C4 counterexample: the claim says `read` returns an empty record rather
than raising for any parse/validation failure, in particular the
unsupported-version case.  But `_validate_bytes` only checks that the root
tag ends with the schema name, so the unsupported-namespace document passes
it and `_convert_xml_to_metadata` raises, which propagates out of
`read_tags`. -/
theorem c4_unsupported_namespace_read_raises :
    read_tags trivCollab c4archive = .error "Unknown ACBF version: http://other" := rfl

/-- C4 amended: `read` returns the empty record whenever the located entry
fails `_validate_bytes` (unparseable bytes, or a root tag not ending in the
schema name); the unsupported-namespace case instead passes validation and
the extraction's version error propagates to the caller. -/
theorem c4_read_empty_on_invalid (c : Collab) (a : Archiver) (f : String)
    (hf : find_acbf_file a = some f)
    (hv : validate_bytes (a.read_file f) = false) :
    read_tags c a = .ok GenericMetadata.empty := by
  have hht : has_tags a = false := by
    simp [has_tags, hf, hv]
  simp [read_tags, hht]

/-- Witness for `c4_read_empty_on_invalid` at the malformed-entry archive. -/
theorem c4_read_empty_on_invalid_witness :
    (find_acbf_file c4badArchive = some "b.acbf" ∧
      validate_bytes (c4badArchive.read_file "b.acbf") = false) ∧
    read_tags trivCollab c4badArchive = .ok GenericMetadata.empty :=
  ⟨⟨rfl, rfl⟩, c4_read_empty_on_invalid trivCollab c4badArchive "b.acbf" rfl rfl⟩

/-- C5 counterexample: the claim says `write` surfaces an error rather than
silently overwriting a malformed entry.  In the code, `has_tags` returns
false for the malformed entry (so the merge base stays empty) but
`self.file` is already set to that entry's name, and `write_tags` proceeds
to overwrite it with a freshly synthesized tree, reporting success. -/
theorem c5_write_overwrites_malformed :
    (write_tags trivSyn c5md c5archive).1 = true ∧
    (write_tags trivSyn c5md c5archive).2.read_file "x.acbf" =
      some (convert_metadata_to_xml trivSyn c5md none).1 :=
  ⟨rfl, rfl⟩

/-- C5 amended: with a located entry that fails validation (malformed bytes
included) and an archive that supports files, `write` silently overwrites
that entry with the tree synthesized from an empty merge base, returning
the archiver's success. -/
theorem c5_write_fresh_base_on_malformed (syn : SynTables) (md : GenericMetadata)
    (a : Archiver) (f : String)
    (hs : a.supports_files = true)
    (hf : find_acbf_file a = some f)
    (hv : validate_bytes (a.read_file f) = false) :
    write_tags syn md a =
      (true, a.write_file f (some (convert_metadata_to_xml syn md none).1)) := by
  have hht : has_tags a = false := by
    simp [has_tags, hf, hv]
  simp [write_tags, supports_tags, hs, hht, hf]

/-- Witness for `c5_write_fresh_base_on_malformed` at the concrete archive. -/
theorem c5_write_fresh_base_on_malformed_witness :
    (c5archive.supports_files = true ∧ find_acbf_file c5archive = some "x.acbf" ∧
      validate_bytes (c5archive.read_file "x.acbf") = false) ∧
    write_tags trivSyn c5md c5archive =
      (true, c5archive.write_file "x.acbf"
        (some (convert_metadata_to_xml trivSyn c5md none).1)) :=
  ⟨⟨rfl, rfl, rfl⟩,
    c5_write_fresh_base_on_malformed trivSyn c5md c5archive "x.acbf" rfl rfl rfl⟩

/-- C6 counterexample: the claim says that given only a `lang="fr"` title,
selection returns it (fallback to the first present).  `get_with_lang` has
no such fallback: its loop only returns an element whose `lang` is missing
or equal to the requested language, and returns `None` otherwise. -/
theorem c6_only_fr_returns_none :
    get_with_lang (some (c6bi [c6title (some "fr") "Titre"])) "book-title" "en" = none ∧
    (none : Option String) ≠ some "Titre" :=
  ⟨rfl, by decide⟩

/-- C6 amended: selection returns the text of the first element in document
order whose `lang` attribute is missing or equals the requested language,
and `None` when no element qualifies (no fallback to the first present):
`fr` then `en` yields the `en` text; only `fr` yields `None`; an untagged
title followed by an `en` one yields the untagged text; an `en` title
followed by an untagged one yields the `en` text (document order, not a
no-lang-beats-en priority). -/
theorem c6_lang_selection :
    (∀ t1 t2 : String,
      get_with_lang (some (c6bi [c6title (some "fr") t1, c6title (some "en") t2]))
        "book-title" "en" = some t2) ∧
    (∀ t1 : String,
      get_with_lang (some (c6bi [c6title (some "fr") t1])) "book-title" "en" = none) ∧
    (∀ t1 t2 : String,
      get_with_lang (some (c6bi [c6title none t1, c6title (some "en") t2]))
        "book-title" "en" = some t1) ∧
    (∀ t1 t2 : String,
      get_with_lang (some (c6bi [c6title (some "en") t1, c6title none t2]))
        "book-title" "en" = some t1) :=
  ⟨fun _ _ => rfl, fun _ => rfl, fun _ _ => rfl, fun _ _ => rfl⟩

/-- C7 counterexample: the claim says `exists` returns false for an entry
whose root element is not this schema's.  `_validate_bytes` only checks
`root.tag.endswith('ACBF')`, so a root tagged `NotACBF` — not the schema's
root element, plain or namespaced — still makes `has_tags` true. -/
theorem c7_exists_true_for_foreign_root :
    has_tags c7archive = true ∧ "NotACBF" ∉ acbf_tags :=
  ⟨rfl, by decide⟩

/-- C7 amended: `exists` is true exactly when some entry name ends in
`.acbf` (the first such entry is used), the archive supports named files,
and that entry parses with a root tag that merely ends with the schema
name — so `<Comic>` fails, but any tag ending in `ACBF` (such as `NotACBF`
or the schema name under an arbitrary namespace) passes. -/
theorem c7_exists_characterization (a : Archiver) :
    has_tags a = true ↔
      ∃ f root, find_acbf_file a = some f ∧ a.supports_files = true ∧
        a.read_file f = some root ∧ pyEndsWith root.tag "ACBF" = true := by
  unfold has_tags supports_tags
  cases hf : find_acbf_file a with
  | none => simp [hf]
  | some f =>
    cases hr : a.read_file f with
    | none => simp [hf, hr, validate_bytes]
    | some root => simp [hf, hr, validate_bytes]

/-- C8 counterexample: the claim quantifies over records with a non-`None`
year, but the write guard is Python truthiness (`if md.year:`), so a record
with `year = 0` writes no `publish-date` element at all instead of the
claimed `2000-06-05`. -/
theorem c8_year_zero_writes_no_date :
    c8md.year = some 0 ∧ c8md.year ≠ none ∧
    findPath ["meta-data", "publish-info", "publish-date"] c8tree = none :=
  ⟨rfl, by decide, rfl⟩

/-- C9 counterexample: with two marker paragraphs, the claim says scan-info
comes from the first; the extraction loop has no break, so each matching
paragraph overwrites the previous and the last one wins. -/
theorem c9_scan_takes_last :
    (convert_xml_to_metadata trivCollab (c9tree "[Scan]one" "[Scan]two") []).toOption.map
        (fun m => m.scan_info) = some (some "two") ∧
    ("two" : String) ≠ "one" :=
  ⟨rfl, by decide⟩

/-- C10: a tree whose root tag is recognized but which has no
`meta-data/book-info` yields the still-empty record: every field at its
default, the page list empty, and the empty flag still set. -/
theorem c10_no_bookinfo_empty (c : Collab) (fl : List String) (root0 : Element)
    (ht : root0.tag ∈ acbf_tags)
    (hb : findPath ["meta-data", "book-info"] (stripNs root0) = none) :
    convert_xml_to_metadata c root0 fl = .ok GenericMetadata.empty ∧
    GenericMetadata.empty.pages = [] ∧ GenericMetadata.empty.is_empty = true := by
  refine ⟨?_, rfl, rfl⟩
  unfold convert_xml_to_metadata
  simp only [ht, if_neg, hb]
  simp [hb, ht]

/-- Witness for `c10_no_bookinfo_empty` at a bare recognized root. -/
theorem c10_no_bookinfo_empty_witness :
    ((Element.mk "ACBF" [] none []).tag ∈ acbf_tags ∧
      findPath ["meta-data", "book-info"] (stripNs (.mk "ACBF" [] none [])) = none) ∧
    (convert_xml_to_metadata trivCollab (.mk "ACBF" [] none []) [] =
        .ok GenericMetadata.empty ∧
      GenericMetadata.empty.pages = [] ∧ GenericMetadata.empty.is_empty = true) :=
  ⟨⟨by decide, rfl⟩,
    c10_no_bookinfo_empty trivCollab [] (.mk "ACBF" [] none []) (by decide) rfl⟩

/-- C9 amended: for a document whose source container holds several marker
paragraphs, extraction sets scan-info from the last such paragraph (each
match overwrites the previous; there is no break), with the marker
stripped. -/
theorem c9_scan_last (c : Collab) (fl : List String) (s1 s2 : String)
    (h1 : pyStartsWith s1 "[Scan]" = true) (h2 : pyStartsWith s2 "[Scan]" = true)
    (h3 : s1 ≠ "") (h4 : s2 ≠ "") :
    (convert_xml_to_metadata c (c9tree s1 s2) fl).toOption.map (fun m => m.scan_info) =
      some (some (pyDropN s2 6)) := by
  have h1x : startsWithL s1.data ['[', 'S', 'c', 'a', 'n', ']'] = true := h1
  have h2x : startsWithL s2.data ['[', 'S', 'c', 'a', 'n', ']'] = true := h2
  simp [h1x, h2x, convert_xml_to_metadata, c9tree, h1, h2, h3, h4, acbf_tags, namespaces,
    stripNs, stripNsL, stripTag, pyStartsWith, startsWithL, pySplitOn, splitOnAux,
    findPath, findAllPath, findAllDeep, findAllDeepL, get_with_lang, langDecode,
    get_deep, descSelect, pagesDecode, listDedup, listAdd, Element.get, Element.tag,
    Element.children, Element.text, Except.toOption, Bind.bind, Except.bind]

/-- Witness for `c9_scan_last` at two concrete marker paragraphs. -/
theorem c9_scan_last_witness :
    (pyStartsWith "[Scan]one" "[Scan]" = true ∧ pyStartsWith "[Scan]two" "[Scan]" = true ∧
      ("[Scan]one" : String) ≠ "" ∧ ("[Scan]two" : String) ≠ "") ∧
    (convert_xml_to_metadata trivCollab (c9tree "[Scan]one" "[Scan]two") []).toOption.map
        (fun m => m.scan_info) = some (some (pyDropN "[Scan]two" 6)) :=
  ⟨⟨rfl, rfl, by decide, by decide⟩,
    c9_scan_last trivCollab [] "[Scan]one" "[Scan]two" rfl rfl (by decide) (by decide)⟩

/-- Editing the children of `book-info` in a built view. -/
theorem editAt_biP_build (v : TView) (g : List Element → List Element) :
    editAt biP (fun bi => bi.withChildren (g bi.children)) v.build =
      TView.build { v with bi := g v.bi } := rfl

/-- Appending one `book-info` child in a built view. -/
theorem appendAt_biP_build (v : TView) (c : Element) :
    appendAt biP c v.build = TView.build { v with bi := v.bi ++ [c] } := rfl

/-- `findall` under `book-info` in a built view. -/
theorem findAllPath_bi_build (v : TView) (x : String) :
    findAllPath ["meta-data", "book-info", x] v.build =
      v.bi.filter (fun c => c.tag = x) := by
  cases hp : v.pub <;> cases hd : v.doc <;> cases hb : v.body <;>
    simp [TView.build, findAllPath, pubPart, docPart, bodyPart, Element.tag,
      Element.children, hp, hd, hb]

/-- `find` of `book-info` itself in a built view. -/
theorem findPath_biP_build (v : TView) :
    findPath biP v.build = some (.mk "book-info" [] none v.bi) := by
  cases hp : v.pub <;> cases hd : v.doc <;> cases hb : v.body <;>
    simp [TView.build, findPath, findAllPath, biP, pubPart, docPart, bodyPart,
      Element.tag, Element.children, hp, hd, hb]

/-- `find` of `meta-data` in a built view. -/
theorem findPath_meta_build (v : TView) :
    (findPath ["meta-data"] v.build).isSome = true := by
  cases hb : v.body <;>
    simp [TView.build, findPath, findAllPath, bodyPart, Element.tag,
      Element.children, hb]

/-- `find` of `publish-info` in a built view. -/
theorem findPath_pub_build (v : TView) :
    findPath ["meta-data", "publish-info"] v.build =
      (v.pub.map (fun cs => Element.mk "publish-info" [] none cs)) := by
  cases hp : v.pub <;> cases hd : v.doc <;> cases hb : v.body <;>
    simp [TView.build, findPath, findAllPath, pubPart, docPart, bodyPart,
      Element.tag, Element.children, hp, hd, hb]

/-- `find` of `document-info` in a built view. -/
theorem findPath_doc_build (v : TView) :
    findPath ["meta-data", "document-info"] v.build =
      (v.doc.map (fun cs => Element.mk "document-info" [] none cs)) := by
  cases hp : v.pub <;> cases hd : v.doc <;> cases hb : v.body <;>
    simp [TView.build, findPath, findAllPath, pubPart, docPart, bodyPart,
      Element.tag, Element.children, hp, hd, hb]

/-- `find` of `body` in a built view. -/
theorem findPath_body_build (v : TView) :
    findPath ["body"] v.build =
      (v.body.map (fun cs => Element.mk "body" [] none cs)) := by
  cases hp : v.pub <;> cases hd : v.doc <;> cases hb : v.body <;>
    simp [TView.build, findPath, findAllPath, pubPart, docPart, bodyPart,
      Element.tag, Element.children, hp, hd, hb]

theorem find_isSome_eq_any {α : Type} (p : α → Bool) (l : List α) :
    (l.find? p).isSome = l.any p := by
  induction l with
  | nil => rfl
  | cons a l ih =>
    by_cases h : p a <;> simp [List.find?_cons, h, ih]

theorem head_filter_eq_find {α : Type} (p : α → Bool) (l : List α) :
    (l.filter p).head? = l.find? p := by
  induction l with
  | nil => rfl
  | cons a l ih =>
    by_cases h : p a <;> simp [List.filter_cons, List.find?_cons, h, ih]

theorem head_filter_isSome {α : Type} (p : α → Bool) (l : List α) :
    ((l.filter p).head?).isSome = l.any p := by
  simp [head_filter_eq_find, find_isSome_eq_any]

theorem editLeaf_found_of_any (f : Element → Element) (s : String) (l : List Element)
    (h : l.any (fun c => c.tag = s) = true) : (editLeaf f s l).2 = true := by
  induction l with
  | nil => simp at h
  | cons c cs ih =>
    by_cases hc : c.tag = s
    · simp [editLeaf, hc]
    · simp [hc] at h
      have := ih (by simpa using h)
      simp [editLeaf, hc, this]

theorem editAt_pub_build (bi : List Element) (cs : List Element)
    (doc body : Option (List Element)) (g : List Element → List Element) :
    editAt ["meta-data", "publish-info"] (fun e => e.withChildren (g e.children))
      (TView.build ⟨bi, some cs, doc, body⟩) =
      TView.build ⟨bi, some (g cs), doc, body⟩ := rfl

theorem appendAt_pub_build (bi cs : List Element) (doc body : Option (List Element))
    (c : Element) :
    appendAt ["meta-data", "publish-info"] c (TView.build ⟨bi, some cs, doc, body⟩) =
      TView.build ⟨bi, some (cs ++ [c]), doc, body⟩ := rfl

theorem editAt_doc_build (bi : List Element) (pub : Option (List Element))
    (cs : List Element) (body : Option (List Element)) (g : List Element → List Element) :
    editAt ["meta-data", "document-info"] (fun e => e.withChildren (g e.children))
      (TView.build ⟨bi, pub, some cs, body⟩) =
      TView.build ⟨bi, pub, some (g cs), body⟩ := by
  cases pub <;> rfl

theorem editAt_pubChild_build (bi cs : List Element) (doc body : Option (List Element))
    (x : String) (f : Element → Element)
    (h : (editLeaf f x cs).2 = true) :
    editAt ["meta-data", "publish-info", x] f (TView.build ⟨bi, some cs, doc, body⟩) =
      TView.build ⟨bi, some (editLeaf f x cs).1, doc, body⟩ := by
  simp [editAt, editInList, editNode, TView.build, Element.tag, Element.children,
    Element.withChildren, pubPart, h]

theorem editAt_docChild_build (bi : List Element) (pub : Option (List Element))
    (cs : List Element) (body : Option (List Element))
    (x : String) (f : Element → Element)
    (h : (editLeaf f x cs).2 = true) :
    editAt ["meta-data", "document-info", x] f (TView.build ⟨bi, pub, some cs, body⟩) =
      TView.build ⟨bi, pub, some (editLeaf f x cs).1, body⟩ := by
  cases pub <;>
    simp [editAt, editInList, editNode, TView.build, Element.tag, Element.children,
      Element.withChildren, pubPart, docPart, h]

theorem editAllAt_bi_build (v : TView) (f : Element → Element) (t : String) :
    editAllAt f ["meta-data", "book-info", t] v.build =
      TView.build { v with bi := v.bi.map (fun c => if c.tag = t then f c else c) } := by
  cases hp : v.pub <;> cases hd : v.doc <;> cases hb : v.body <;>
    simp [TView.build, editAllAt, pubPart, docPart, bodyPart, Element.tag,
      Element.children, Element.withChildren, hp, hd, hb]

theorem findAllPath_pub_build (v : TView) (x : String) :
    findAllPath ["meta-data", "publish-info", x] v.build =
      (v.pub.getD []).filter (fun c => c.tag = x) := by
  cases hp : v.pub <;> cases hd : v.doc <;> cases hb : v.body <;>
    simp [TView.build, findAllPath, pubPart, docPart, bodyPart, Element.tag,
      Element.children, hp, hd, hb]

theorem findAllPath_doc_build (v : TView) (x : String) :
    findAllPath ["meta-data", "document-info", x] v.build =
      (v.doc.getD []).filter (fun c => c.tag = x) := by
  cases hp : v.pub <;> cases hd : v.doc <;> cases hb : v.body <;>
    simp [TView.build, findAllPath, pubPart, docPart, bodyPart, Element.tag,
      Element.children, hp, hd, hb]

theorem ensure_biP_build (v : TView) :
    ensurePath v.build ["meta-data", "book-info"] = v.build := by
  have h1 := findPath_meta_build v
  have h2 := findPath_biP_build v
  simp only [biP] at h2
  simp [ensurePath, ensureAux, h1, h2]

theorem ensure_pub_build (v : TView) (hd : v.doc = none) :
    ensurePath v.build ["meta-data", "publish-info"] =
      TView.build { v with pub := some (v.pub.getD []) } := by
  rcases v with ⟨bi, pub, doc, body⟩
  simp only at hd
  subst hd
  have h1 := findPath_meta_build ⟨bi, pub, none, body⟩
  have h2 := findPath_pub_build ⟨bi, pub, none, body⟩
  cases pub with
  | some cs => simp [ensurePath, ensureAux, h1, h2]
  | none =>
    simp only at h2
    simp [ensurePath, ensureAux, h1, h2]
    cases body <;> rfl

theorem ensure_body_build (v : TView) :
    ensurePath v.build ["body"] = TView.build { v with body := some (v.body.getD []) } := by
  rcases v with ⟨bi, pub, doc, body⟩
  have h2 := findPath_body_build ⟨bi, pub, doc, body⟩
  cases body with
  | some cs => simp [ensurePath, ensureAux, h2]
  | none =>
    simp only at h2
    simp [ensurePath, ensureAux, h2]
    cases pub <;> cases doc <;> rfl

theorem appendAt_doc_build (bi : List Element) (pub : Option (List Element))
    (cs : List Element) (body : Option (List Element)) (c : Element) :
    appendAt ["meta-data", "document-info"] c (TView.build ⟨bi, pub, some cs, body⟩) =
      TView.build ⟨bi, pub, some (cs ++ [c]), body⟩ := by
  cases pub <;> rfl

theorem ensure_docChild_build (v : TView) (t : String) (hne : ¬ t = "document-info") :
    ensurePath v.build ["meta-data", "document-info", t] =
      TView.build { v with doc := some (ensureChildList t (v.doc.getD [])) } := by
  unfold ensureChildList
  rcases v with ⟨bi, pub, doc, body⟩
  have h1 := findPath_meta_build ⟨bi, pub, doc, body⟩
  have h2 := findPath_doc_build ⟨bi, pub, doc, body⟩
  cases doc with
  | some cs =>
    simp only at h2
    have h3 : findPath ["meta-data", "document-info", t]
        (TView.build ⟨bi, pub, some cs, body⟩) = (cs.filter (fun c => c.tag = t)).head? := by
      simp [findPath, findAllPath_doc_build ⟨bi, pub, some cs, body⟩ t]
    by_cases hany : cs.any (fun c => c.tag = t)
    · have hsome : (findPath ["meta-data", "document-info", t]
          (TView.build ⟨bi, pub, some cs, body⟩)).isSome = true := by
        rw [h3, head_filter_isSome]
        exact hany
      simp [ensurePath, ensureAux, h1, h2, hsome, hany] <;>
        simpa using hany
    · have hfalse : (cs.any (fun c => c.tag = t)) = false := eq_false_of_ne_true hany
      have hnone : findPath ["meta-data", "document-info", t]
          (TView.build ⟨bi, pub, some cs, body⟩) = none := by
        rw [h3]
        have hh := head_filter_isSome (fun c => c.tag = t) cs
        rw [hfalse] at hh
        cases hq : (cs.filter (fun c => c.tag = t)).head? with
        | none => rfl
        | some y => rw [hq] at hh; simp at hh
      simp [ensurePath, ensureAux, h1, h2, hnone, hfalse,
        appendAt_doc_build bi pub cs body (.mk t [] none [])] <;>
        simpa using List.any_eq_false.mp hfalse
  | none =>
    have h2x : findPath ["meta-data", "document-info"]
        (TView.build ⟨bi, pub, none, body⟩) = none := by
      simpa using findPath_doc_build ⟨bi, pub, none, body⟩
    have happ : appendAt ["meta-data"] (Element.mk "document-info" [] none [])
        (TView.build ⟨bi, pub, none, body⟩) = TView.build ⟨bi, pub, some [], body⟩ := by
      cases pub <;> cases body <;> rfl
    have h3 : findPath ["meta-data", "document-info", t]
        (TView.build ⟨bi, pub, some [], body⟩) = none := by
      simp [findPath, findAllPath_doc_build ⟨bi, pub, some [], body⟩ t]
    simp [ensurePath, ensureAux, h1, h2x, happ, h3,
      appendAt_doc_build bi pub [] body (.mk t [] none [])]

theorem init_build :
    ensurePath (initTree none) ["meta-data", "book-info"] =
      TView.build ⟨[], none, none, none⟩ := rfl

theorem clearAuthors_build (v : TView) :
    clearElementAt biP "author" v.build = (vClearAuthors v).build := rfl

theorem creditsStep_build (syn : SynTables) (md : GenericMetadata) (v : TView) :
    creditsStep syn md v.build = (vCredits syn md v).build := by
  unfold creditsStep vCredits
  induction md.credits generalizing v with
  | nil => rfl
  | cons c cs ih =>
    simp only [List.foldl_cons]
    rcases h : add_credit_elt c.person (roleDispatch syn c).1 (roleDispatch syn c).2 with _ | a
    · simp only [h]
      exact ih v
    · simp only [h, appendAt_biP_build]
      exact ih _

theorem sequenceStep_build (md : GenericMetadata) (v : TView) :
    sequenceStep md v.build = (vSequence md v).build := by
  unfold sequenceStep vSequence
  by_cases h : truthyS md.series
  · simp only [h, if_true, findAllPath_bi_build]
    by_cases hl : (v.bi.filter (fun c => c.tag = "sequence")).length = 1
    · simp [hl, appendAt_biP_build]
    · simp [hl, editAt_biP_build, appendAt_biP_build]
  · simp [h]

theorem titleStep_build (md : GenericMetadata) (v : TView) :
    titleStep md v.build = (vTitle md v).build := by
  unfold titleStep vTitle
  by_cases h : truthyS md.title
  · simp only [h, if_true, editAllAt_bi_build, appendAt_biP_build]
  · simp [h]

theorem genresFold_build (cur : List Element) (gs : List String) (v : TView) :
    gs.foldl (fun (r : Element) (g : String) =>
      let g := pyReplaceChar (pyCasefold g) ' ' '_'
      let g := if g = "historical" then "history" else g
      if g ∈ allow_genres then
        let mtch : Int := genreMatchVal cur g
        if (0 : Int) < mtch then
          appendAt biP (mkChild "genre" (some g) [("match", toString mtch)]) r
        else appendAt biP (mkChild "genre" (some g) []) r
      else r) v.build =
    (gs.foldl (fun (vv : TView) (g : String) =>
      let g := pyReplaceChar (pyCasefold g) ' ' '_'
      let g := if g = "historical" then "history" else g
      if g ∈ allow_genres then
        let mtch : Int := genreMatchVal cur g
        if (0 : Int) < mtch then
          { vv with bi := vv.bi ++ [mkChild "genre" (some g) [("match", toString mtch)]] }
        else { vv with bi := vv.bi ++ [mkChild "genre" (some g) []] }
      else vv) v).build := by
  induction gs generalizing v with
  | nil => rfl
  | cons g gs ih =>
    simp only [List.foldl_cons]
    by_cases ha : (if pyReplaceChar (pyCasefold g) ' ' '_' = "historical" then "history"
        else pyReplaceChar (pyCasefold g) ' ' '_') ∈ allow_genres
    · by_cases hm : (0 : Int) < genreMatchVal cur
        (if pyReplaceChar (pyCasefold g) ' ' '_' = "historical" then "history"
         else pyReplaceChar (pyCasefold g) ' ' '_')
      · simp only [ha, hm, if_true, appendAt_biP_build]
        exact ih _
      · simp only [ha, hm, if_true, if_false, appendAt_biP_build]
        exact ih _
    · simp only [ha, if_false]
      exact ih v

theorem genresStep_build (md : GenericMetadata) (v : TView) :
    genresStep md v.build = ((vGenres md v).1.build, (vGenres md v).2) := by
  unfold genresStep vGenres
  simp only [findAllPath_bi_build]
  have hclear : clearElementAt biP "genre" v.build =
      TView.build { v with bi := v.bi.filter (fun c => ¬ c.tag = "genre") } := rfl
  rw [hclear, genresFold_build]

theorem descStep_build (md : GenericMetadata) (v : TView) :
    descStep md v.build = (vDesc md v).build := by
  unfold descStep vDesc
  by_cases h : truthyS md.description
  · simp only [h, if_true, findAllPath_bi_build]
    by_cases hf : ((v.bi.filter (fun c => c.tag = "annotation")).any
        (annoMatches (md.description.getD "")))
    · simp [hf]
    · simp only [hf, Bool.false_eq_true, if_false, appendAt_biP_build]
      by_cases hl : truthyS md.language
      · simp only [hl, if_true, editAt_biP_build]
      · simp [hl]
  · simp [h]

theorem weblinksFold_build (dbname : String) (ws : List String) (v : TView) :
    ws.foldl (fun (r : Element) web =>
      appendAt biP (mkChild "databaseref" (some web) [("type", "URL"), ("dbname", dbname)]) r)
      v.build =
    (ws.foldl (fun (vv : TView) web =>
      { vv with bi := vv.bi ++
          [mkChild "databaseref" (some web) [("type", "URL"), ("dbname", dbname)]] }) v).build := by
  induction ws generalizing v with
  | nil => rfl
  | cons w ws ih =>
    simp only [List.foldl_cons, appendAt_biP_build]
    exact ih _

theorem weblinksStep_build (md : GenericMetadata) (v : TView) :
    weblinksStep md v.build = (vWeblinks md v).build := by
  unfold weblinksStep vWeblinks
  by_cases h : md.web_links = []
  · simp [h]
  · simp only [h, if_true, ne_eq, not_false_eq_true, if_pos]
    have hfilter : editAt biP (fun bi => bi.withChildren (bi.children.filter
        (fun dbref => ¬ (dbref.tag = "databaseref" ∧
          pyCasefold ((dbref.get "type").getD "") = "url")))) v.build =
        TView.build { v with bi := v.bi.filter (fun dbref => ¬ (dbref.tag = "databaseref" ∧
          pyCasefold ((dbref.get "type").getD "") = "url")) } := rfl
    rw [hfilter, weblinksFold_build]

theorem maturityStep_build (md : GenericMetadata) (v : TView) :
    maturityStep md v.build = (vMaturity md v).build := by
  unfold maturityStep vMaturity
  by_cases h : truthyS md.maturity_rating
  · simp only [h, if_true, findPath_biP_build, Element.children]
    by_cases hf : (v.bi.any
        (fun rate => rate.tag = "content-rating" ∧ rate.text = md.maturity_rating))
    · simp only [appendAt_biP_build]
      rw [if_pos hf, if_pos hf]
    · simp only [appendAt_biP_build]
      rw [if_neg hf, if_neg hf]
  · simp [h]

theorem editAt_biChild_build (v : TView) (x : String) (f : Element → Element)
    (h : (editLeaf f x v.bi).2 = true) :
    editAt ["meta-data", "book-info", x] f v.build =
      TView.build { v with bi := (editLeaf f x v.bi).1 } := by
  rcases v with ⟨bi, pub, doc, body⟩
  simp only at h
  simp [editAt, editInList, editNode, TView.build, Element.tag, Element.children,
    Element.withChildren, pubPart, docPart, h]

theorem ensure_biChild_build (v : TView) (t : String) :
    ensurePath v.build ["meta-data", "book-info", t] =
      TView.build { v with bi := ensureChildList t v.bi } := by
  unfold ensureChildList
  have h1 := findPath_meta_build v
  have h2 := findPath_biP_build v
  simp only [biP] at h2
  have h3 : findPath ["meta-data", "book-info", t] v.build =
      (v.bi.filter (fun c => c.tag = t)).head? := by
    simp [findPath, findAllPath_bi_build v t]
  by_cases hany : v.bi.any (fun c => c.tag = t)
  · have hsome : (findPath ["meta-data", "book-info", t] v.build).isSome = true := by
      rw [h3, head_filter_isSome]
      exact hany
    simp [ensurePath, ensureAux, h1, h2, hsome, hany]
  · have hfalse : (v.bi.any (fun c => c.tag = t)) = false := eq_false_of_ne_true hany
    have hnone : findPath ["meta-data", "book-info", t] v.build = none := by
      rw [h3]
      have hh := head_filter_isSome (fun c => c.tag = t) v.bi
      rw [hfalse] at hh
      cases hq : (v.bi.filter (fun c => c.tag = t)).head? with
      | none => rfl
      | some y => rw [hq] at hh; simp at hh
    simp [ensurePath, ensureAux, h1, h2, hnone, hfalse]
    rfl

theorem editLeaf_found_ensure (f : Element → Element) (t : String) (l : List Element) :
    (editLeaf f t (ensureChildList t l)).2 = true := by
  unfold ensureChildList
  by_cases h : l.any (fun c => c.tag = t)
  · simp only [h, if_true]
    exact editLeaf_found_of_any f t l h
  · simp only [h]
    apply editLeaf_found_of_any
    have ht : (Element.mk t [] none []).tag = t := rfl
    simp [ht]

theorem modifyBi_build (v : TView) (name value : String)
    (attribs : List (String × String)) (cb : Bool) :
    modify_element ["meta-data", "book-info", name] value attribs cb v.build =
      (vModifyBi name value attribs cb v).build := by
  unfold modify_element vModifyBi
  have hens := ensure_biP_build v
  simp only [ensurePath] at hens
  have hlast : (["meta-data", "book-info", name] : List String).getLastD "" = name := rfl
  have hdrop : (["meta-data", "book-info", name] : List String).dropLast =
      ["meta-data", "book-info"] := rfl
  have h3 : findPath ["meta-data", "book-info", name] v.build =
      (v.bi.filter (fun c => c.tag = name)).head? := by
    simp [findPath, findAllPath_bi_build v name]
  by_cases hany : v.bi.any (fun c => c.tag = name)
  · have hfound := editLeaf_found_of_any (modifySet value attribs cb) name v.bi hany
    have hedit := editAt_biChild_build v name (modifySet value attribs cb) hfound
    have hsome : (findPath ["meta-data", "book-info", name] v.build).isSome = true := by
      rw [h3, head_filter_isSome]; exact hany
    simp only [hdrop, hlast, hens, hsome, if_true, hedit]
    simp [ensureChildList, hany]
  · have hfalse : (v.bi.any (fun c => c.tag = name)) = false := eq_false_of_ne_true hany
    have hnone : findPath ["meta-data", "book-info", name] v.build = none := by
      rw [h3]
      have hh := head_filter_isSome (fun c => c.tag = name) v.bi
      rw [hfalse] at hh
      cases hq : (v.bi.filter (fun c => c.tag = name)).head? with
      | none => rfl
      | some y => rw [hq] at hh; simp at hh
    have happ : appendAt ["meta-data", "book-info"] (Element.mk name [] none []) v.build =
        TView.build { v with bi := v.bi ++ [Element.mk name [] none []] } := rfl
    have hfound : (editLeaf (modifySet value attribs cb) name
        (v.bi ++ [Element.mk name [] none []])).2 = true := by
      apply editLeaf_found_of_any
      have ht : (Element.mk name [] none []).tag = name := rfl
      simp [ht]
    have hedit := editAt_biChild_build
      { v with bi := v.bi ++ [Element.mk name [] none []] } name
      (modifySet value attribs cb) hfound
    simp only [hdrop, hlast, hens, hnone, Option.isSome_none, Bool.false_eq_true,
      if_false, happ, hedit]
    simp [ensureChildList, hfalse]

theorem tagsStep_build (md : GenericMetadata) (v : TView) :
    tagsStep md v.build = (vTags md v).build := by
  unfold tagsStep vTags
  by_cases h : md.tags = []
  · simp [h]
  · simp only [h, ne_eq, not_false_eq_true, if_pos]
    exact modifyBi_build v "keywords" (joinWith ", " md.tags) [] false

theorem namesStep_build (containerTag : String) (names : List (Option String)) (v : TView) :
    namesStep containerTag names v.build = (vNames containerTag names v).build := by
  unfold namesStep vNames
  by_cases h : names = []
  · simp [h]
  · simp only [h, ne_eq, not_false_eq_true, if_pos]
    have hens := ensure_biChild_build v containerTag
    have hshow : biP ++ [containerTag] = ["meta-data", "book-info", containerTag] := rfl
    rw [hshow, hens]
    have hfound : (editLeaf
        (fun e => Element.mk e.tag [] none (names.map (fun c => mkChild "name" c [])))
        containerTag (ensureChildList containerTag v.bi)).2 = true :=
      editLeaf_found_ensure _ _ _
    rw [editAt_biChild_build _ containerTag _ hfound]

theorem idsStep_build (md : GenericMetadata) (v : TView) :
    idsStep md v.build = (vIds md v).build := by
  unfold idsStep vIds
  by_cases h : truthyS md.issue_id ∨ truthyS md.series_id
  · simp only [h, if_true, findPath_biP_build, Element.children]
    by_cases h1 : truthyS md.issue_id ∧ (((v.bi.filter (fun d => d.tag = "databaseref")).foldl
        (fun (acc : Bool × Bool) (dbref : Element) =>
          if pyCasefold ((dbref.get "type").getD "") ∈ ["issueid", "issue_id", "issue-id"] then
            let ai := if md.issue_id ≠ none ∧ dbref.text = md.issue_id then false else acc.1
            let as2 :=
              if pyCasefold ((dbref.get "type").getD "") ∈ ["seriesid", "series_id", "series-id"]
              then (if md.series_id ≠ none ∧ dbref.text = md.series_id then false else acc.2)
              else acc.2
            (ai, as2)
          else acc) (true, true)).1 = true)
    · simp only [h1, if_pos, appendAt_biP_build]
      split <;> simp [appendAt_biP_build]
    · simp only [h1, if_neg]
      split <;> simp [appendAt_biP_build]
  · simp [h]

theorem modifyPub_build (bi cs : List Element) (doc body : Option (List Element))
    (name value : String) (attribs : List (String × String)) (cb : Bool) :
    modify_element ["meta-data", "publish-info", name] value attribs cb
        (TView.build ⟨bi, some cs, doc, body⟩) =
      (vModifyPub name value attribs cb ⟨bi, some cs, doc, body⟩).build := by
  unfold modify_element vModifyPub
  have hlast : (["meta-data", "publish-info", name] : List String).getLastD "" = name := rfl
  have hdrop : (["meta-data", "publish-info", name] : List String).dropLast =
      ["meta-data", "publish-info"] := rfl
  have h1 := findPath_meta_build ⟨bi, some cs, doc, body⟩
  have h2 := findPath_pub_build ⟨bi, some cs, doc, body⟩
  simp only at h2
  have hens : ensureAux [] ["meta-data", "publish-info"]
      (TView.build ⟨bi, some cs, doc, body⟩) = TView.build ⟨bi, some cs, doc, body⟩ := by
    simp [ensureAux, h1, h2]
  have h3 : findPath ["meta-data", "publish-info", name]
      (TView.build ⟨bi, some cs, doc, body⟩) =
      (cs.filter (fun c => c.tag = name)).head? := by
    simp [findPath, findAllPath_pub_build ⟨bi, some cs, doc, body⟩ name]
  by_cases hany : cs.any (fun c => c.tag = name)
  · have hfound := editLeaf_found_of_any (modifySet value attribs cb) name cs hany
    have hedit := editAt_pubChild_build bi cs doc body name (modifySet value attribs cb) hfound
    have hsome : (findPath ["meta-data", "publish-info", name]
        (TView.build ⟨bi, some cs, doc, body⟩)).isSome = true := by
      rw [h3, head_filter_isSome]; exact hany
    simp only [hdrop, hlast, hens, hsome, if_true, hedit]
    simp [ensureChildList, hany]
  · have hfalse : (cs.any (fun c => c.tag = name)) = false := eq_false_of_ne_true hany
    have hnone : findPath ["meta-data", "publish-info", name]
        (TView.build ⟨bi, some cs, doc, body⟩) = none := by
      rw [h3]
      have hh := head_filter_isSome (fun c => c.tag = name) cs
      rw [hfalse] at hh
      cases hq : (cs.filter (fun c => c.tag = name)).head? with
      | none => rfl
      | some y => rw [hq] at hh; simp at hh
    have happ := appendAt_pub_build bi cs doc body (.mk name [] none [])
    have hfound : (editLeaf (modifySet value attribs cb) name
        (cs ++ [Element.mk name [] none []])).2 = true := by
      apply editLeaf_found_of_any
      have ht : (Element.mk name [] none []).tag = name := rfl
      simp [ht]
    have hedit := editAt_pubChild_build bi (cs ++ [Element.mk name [] none []]) doc body
      name (modifySet value attribs cb) hfound
    simp only [hdrop, hlast, hens, hnone, Option.isSome_none, Bool.false_eq_true,
      if_false, happ, hedit]
    simp [ensureChildList, hfalse]

theorem isbnStep_build (md : GenericMetadata) (bi cs : List Element)
    (doc body : Option (List Element)) :
    isbnStep md (TView.build ⟨bi, some cs, doc, body⟩) =
      (vIsbn md ⟨bi, some cs, doc, body⟩).build := by
  unfold isbnStep vIsbn
  by_cases h : truthyS md.identifier
  · simp only [h, if_true]
    exact modifyPub_build bi cs doc body "isbn" (md.identifier.getD "") [] false
  · simp [h]

theorem publisherStep_build (md : GenericMetadata) (bi cs : List Element)
    (doc body : Option (List Element)) :
    publisherStep md (TView.build ⟨bi, some cs, doc, body⟩) =
      (vPublisher md ⟨bi, some cs, doc, body⟩).build := by
  unfold publisherStep vPublisher
  by_cases h : truthyS md.publisher
  · by_cases hi : truthyS md.imprint
    · simp only [h, hi, if_true]
      exact modifyPub_build bi cs doc body "publisher" (md.publisher.getD "")
        [("imprint", md.imprint.getD "")] false
    · simp only [h, hi, if_true, Bool.false_eq_true, if_false]
      exact modifyPub_build bi cs doc body "publisher" (md.publisher.getD "") [] true
  · simp only [h, Bool.false_eq_true, if_false]
    have : clearElementAt ["meta-data", "publish-info"] "publisher"
        (TView.build ⟨bi, some cs, doc, body⟩) =
        TView.build ⟨bi, some (cs.filter (fun c => ¬ c.tag = "publisher")), doc, body⟩ :=
      editAt_pub_build bi cs doc body (fun l => l.filter (fun c => ¬ c.tag = "publisher"))
    simp [this]

theorem dateStep_build (md : GenericMetadata) (bi cs : List Element)
    (doc body : Option (List Element)) :
    dateStep md (TView.build ⟨bi, some cs, doc, body⟩) =
      (vDate md ⟨bi, some cs, doc, body⟩).build := by
  unfold dateStep vDate
  by_cases h : truthyI md.year
  · simp only [h, if_true]
    exact modifyPub_build bi cs doc body "publish-date" _ _ false
  · simp [h]

theorem notesStep_build (md : GenericMetadata) (v : TView) :
    notesStep md v.build = (vNotes md v).build := by
  rcases v with ⟨bi, pub, doc, body⟩
  unfold notesStep vNotes vEnsureDocChild
  by_cases h : truthyS md.notes
  · simp only [h, if_true]
    rw [ensure_docChild_build ⟨bi, pub, doc, body⟩ "history" (by decide)]
    have hfound := editLeaf_found_ensure (fun e => Element.mk e.tag [] none
        ((pySplitOn (md.notes.getD "") "\n").map (fun n => mkChild "p" (some n) [])))
      "history" (doc.getD [])
    have hedit := editAt_docChild_build bi pub
      (ensureChildList "history" (doc.getD [])) body "history" _ hfound
    simp only at hedit ⊢
    rw [hedit]
    rfl
  · simp [h]

theorem editLeaf_any_tag (f : Element → Element) (t : String) (l : List Element)
    (hf : ∀ e, (f e).tag = e.tag) :
    (editLeaf f t l).1.any (fun c => c.tag = t) = l.any (fun c => c.tag = t) := by
  induction l with
  | nil => simp [editLeaf]
  | cons c cs ih =>
    by_cases hc : c.tag = t
    · simp [editLeaf, hc, hf c]
    · simp [editLeaf, hc, ih]

theorem any_ensureChildList (t : String) (l : List Element) :
    (ensureChildList t l).any (fun c => c.tag = t) = true := by
  unfold ensureChildList
  by_cases h : l.any (fun c => c.tag = t)
  · simp [h]
  · have ht : (Element.mk t [] none []).tag = t := rfl
    simp [h, ht]

theorem scanStep_build (md : GenericMetadata) (v : TView) :
    scanStep md v.build = (vScan md v).build := by
  rcases v with ⟨bi, pub, doc, body⟩
  unfold scanStep vScan vEnsureDocChild
  by_cases h : truthyS md.scan_info
  · simp only [h, if_true]
    rw [ensure_docChild_build ⟨bi, pub, doc, body⟩ "source" (by decide)]
    have hfound1 := editLeaf_found_ensure (fun src => src.withChildren (pyLiveRemove
        (fun s => match s.text with
          | some t => t ≠ "" ∧ pyStartsWith t "[Scan]"
          | none => false) src.children)) "source" (doc.getD [])
    have hedit1 := editAt_docChild_build bi pub
      (ensureChildList "source" (doc.getD [])) body "source" _ hfound1
    simp only at hedit1 ⊢
    rw [hedit1]
    have hany2 : ((editLeaf (fun src => src.withChildren (pyLiveRemove
        (fun s => match s.text with
          | some t => t ≠ "" ∧ pyStartsWith t "[Scan]"
          | none => false) src.children)) "source"
        (ensureChildList "source" (doc.getD []))).1.any
          (fun c => c.tag = "source")) = true := by
      rw [editLeaf_any_tag]
      · exact any_ensureChildList _ _
      · intro e
        cases e
        rfl
    have hfound2 := editLeaf_found_of_any (fun e => e.withChildren (e.children ++
        [mkChild "p" (some ("[Scan]" ++ md.scan_info.getD "")) []])) "source" _ hany2
    have hedit2 := editAt_docChild_build bi pub
      ((editLeaf (fun src => src.withChildren (pyLiveRemove
        (fun s => match s.text with
          | some t => t ≠ "" ∧ pyStartsWith t "[Scan]"
          | none => false) src.children)) "source"
        (ensureChildList "source" (doc.getD []))).1) body "source" _ hfound2
    simp only at hedit2
    simp only [appendAt]
    rw [hedit2]
    rfl
  · simp [h]

theorem appendAt_body_build (v : TView) (bs : List Element) (hb : v.body = some bs)
    (c : Element) :
    appendAt ["body"] c v.build = TView.build { v with body := some (bs ++ [c]) } := by
  rcases v with ⟨bi, pub, doc, body⟩
  simp only at hb
  subst hb
  cases pub <;> cases doc <;> rfl

theorem bodyClear_build (v : TView) (bs : List Element) (hb : v.body = some bs) :
    editAt ["body"] (fun b => Element.mk b.tag b.attrib none [])
      v.build = TView.build { v with body := some [] } := by
  rcases v with ⟨bi, pub, doc, body⟩
  simp only at hb
  subst hb
  cases pub <;> cases doc <;> rfl

theorem findPath_cover_build (v : TView) :
    findPath (biP ++ ["coverpage"]) v.build =
      (v.bi.filter (fun c => c.tag = "coverpage")).head? := by
  have h : biP ++ ["coverpage"] = ["meta-data", "book-info", "coverpage"] := rfl
  rw [h]
  simp [findPath, findAllPath_bi_build v "coverpage"]

theorem buildPageDict_build (v : TView) (bs : List Element) (hb : v.body = some bs) :
    buildPageDict v.build = vPageDict v := by
  unfold buildPageDict vPageDict
  rw [findPath_cover_build v, findPath_body_build v, hb]
  simp [Element.children]

theorem add_page_build (lang : Option String) (page : PageMetadata) (old : Option Element)
    (is_cover : Bool) (v : TView) (bs : List Element) (hb : v.body = some bs) :
    add_page lang page old is_cover v.build = (vAddPage lang page old is_cover v).build := by
  unfold add_page vAddPage
  by_cases hc : is_cover
  · simp [hc, appendAt_biP_build]
  · simp [hc, appendAt_body_build v bs hb]
    rw [hb]
    rfl

theorem vAddPage_body_some (lang : Option String) (page : PageMetadata)
    (old : Option Element) (is_cover : Bool) (v : TView) (bs : List Element)
    (hb : v.body = some bs) : ∃ bs2, (vAddPage lang page old is_cover v).body = some bs2 := by
  unfold vAddPage
  cases is_cover with
  | true => exact ⟨bs, by simp [hb]⟩
  | false => exact ⟨_, rfl⟩

theorem addPageFold_build (lang : Option String) (dict : List (String × Element))
    (ips : List (Nat × PageMetadata)) (v : TView) (bs : List Element)
    (hb : v.body = some bs) :
    ips.foldl (fun r ip =>
        add_page lang ip.2 (dictGet dict ip.2.filename) (ip.1 = 0) r) v.build =
      (ips.foldl (fun vv ip =>
        vAddPage lang ip.2 (dictGet dict ip.2.filename) (ip.1 = 0) vv) v).build := by
  induction ips generalizing v bs with
  | nil => rfl
  | cons ip ips ih =>
    simp only [List.foldl_cons]
    rw [add_page_build lang ip.2 (dictGet dict ip.2.filename) (ip.1 = 0) v bs hb]
    rcases vAddPage_body_some lang ip.2 (dictGet dict ip.2.filename) (ip.1 = 0) v bs hb
      with ⟨bs2, hb2⟩
    exact ih _ bs2 hb2

theorem pagesStep_build (md : GenericMetadata) (v : TView) :
    pagesStep md v.build = ((vPages md v).1.build, (vPages md v).2) := by
  simp only [pagesStep, vPages]
  rw [ensure_body_build v]
  rw [buildPageDict_build { v with body := some (v.body.getD []) } (v.body.getD []) rfl]
  rw [findPath_cover_build { v with body := some (v.body.getD []) }]
  simp only
  cases hcp : (v.bi.filter (fun c => c.tag = "coverpage")).head? with
  | some cp =>
    rw [editAt_biP_build { v with body := some (v.body.getD []) }
      (removeFirstBy (fun c => c.tag = "coverpage"))]
    rw [bodyClear_build _ (v.body.getD []) rfl]
    rw [addPageFold_build md.language (vPageDict { v with body := some (v.body.getD []) })
      _ _ [] rfl]
  | none =>
    rw [bodyClear_build _ (v.body.getD []) rfl]
    rw [addPageFold_build md.language (vPageDict { v with body := some (v.body.getD []) })
      _ _ [] rfl]

theorem vClearAuthors_rest (v : TView) : (vClearAuthors v).rest = v.rest := rfl

theorem vCredits_rest (syn : SynTables) (md : GenericMetadata) (v : TView) :
    (vCredits syn md v).rest = v.rest := by
  unfold vCredits
  induction md.credits generalizing v with
  | nil => rfl
  | cons c cs ih =>
    simp only [List.foldl_cons]
    rcases add_credit_elt c.person (roleDispatch syn c).1 (roleDispatch syn c).2 with _ | a
    · exact ih v
    · exact ih _

theorem vSequence_rest (md : GenericMetadata) (v : TView) :
    (vSequence md v).rest = v.rest := by
  unfold vSequence
  dsimp only
  repeat' split
  all_goals rfl

theorem vTitle_rest (md : GenericMetadata) (v : TView) :
    (vTitle md v).rest = v.rest := by
  unfold vTitle
  dsimp only
  repeat' split
  all_goals rfl

theorem vGenres_rest (md : GenericMetadata) (v : TView) :
    (vGenres md v).1.rest = v.rest := by
  unfold vGenres
  simp only
  generalize (if (match md.manga with
      | some m => pyStartsWith (pyCasefold m) "yes"
      | none => false) = true
    then listAdd md.genres "manga" else md.genres) = gs
  generalize hv1 : ({ v with bi := v.bi.filter (fun c => ¬ c.tag = "genre") } : TView) = v1
  have hr : v1.rest = v.rest := by rw [← hv1]; rfl
  clear hv1
  induction gs generalizing v1 with
  | nil => exact hr
  | cons g gs ih =>
    simp only [List.foldl_cons]
    refine ih _ ?_
    dsimp only
    repeat' split
    all_goals exact hr

theorem vDesc_rest (md : GenericMetadata) (v : TView) :
    (vDesc md v).rest = v.rest := by
  unfold vDesc
  dsimp only
  repeat' split
  all_goals rfl

theorem vWeblinks_rest (md : GenericMetadata) (v : TView) :
    (vWeblinks md v).rest = v.rest := by
  unfold vWeblinks
  split <;> [skip; rfl]
  simp only
  generalize hv1 : ({ v with bi := v.bi.filter _ } : TView) = v1
  have hr : v1.rest = v.rest := by rw [← hv1]; rfl
  clear hv1
  induction md.web_links generalizing v1 with
  | nil => exact hr
  | cons w ws ih =>
    simp only [List.foldl_cons]
    exact ih _ hr

theorem vMaturity_rest (md : GenericMetadata) (v : TView) :
    (vMaturity md v).rest = v.rest := by
  unfold vMaturity
  dsimp only
  repeat' split
  all_goals rfl

theorem vTags_rest (md : GenericMetadata) (v : TView) :
    (vTags md v).rest = v.rest := by
  unfold vTags vModifyBi
  split <;> rfl

theorem vNames_rest (containerTag : String) (names : List (Option String)) (v : TView) :
    (vNames containerTag names v).rest = v.rest := by
  unfold vNames
  split <;> rfl

theorem vIds_rest (md : GenericMetadata) (v : TView) :
    (vIds md v).rest = v.rest := by
  unfold vIds
  dsimp only
  repeat' split
  all_goals rfl

theorem isbnStep_build2 (md : GenericMetadata) (v : TView) (h : v.pub.isSome = true) :
    isbnStep md v.build = (vIsbn md v).build := by
  rcases v with ⟨bi, pub, doc, body⟩
  simp only at h
  obtain ⟨cs, rfl⟩ := Option.isSome_iff_exists.mp h
  exact isbnStep_build md bi cs doc body

theorem publisherStep_build2 (md : GenericMetadata) (v : TView) (h : v.pub.isSome = true) :
    publisherStep md v.build = (vPublisher md v).build := by
  rcases v with ⟨bi, pub, doc, body⟩
  simp only at h
  obtain ⟨cs, rfl⟩ := Option.isSome_iff_exists.mp h
  exact publisherStep_build md bi cs doc body

theorem dateStep_build2 (md : GenericMetadata) (v : TView) (h : v.pub.isSome = true) :
    dateStep md v.build = (vDate md v).build := by
  rcases v with ⟨bi, pub, doc, body⟩
  simp only at h
  obtain ⟨cs, rfl⟩ := Option.isSome_iff_exists.mp h
  exact dateStep_build md bi cs doc body

theorem vEnsurePub_pub_some (v : TView) : (vEnsurePub v).pub.isSome = true := rfl

theorem vIsbn_pub_some (md : GenericMetadata) (v : TView) (h : v.pub.isSome = true) :
    (vIsbn md v).pub.isSome = true := by
  unfold vIsbn vModifyPub
  split
  · rfl
  · exact h

theorem vPublisher_pub_some (md : GenericMetadata) (v : TView) (h : v.pub.isSome = true) :
    (vPublisher md v).pub.isSome = true := by
  unfold vPublisher vModifyPub
  repeat' split
  all_goals rfl

theorem pairFst (a : Element × GenericMetadata) : (a.1, a.2).1 = a.1 := rfl

theorem convert_eq_build (syn : SynTables) (md : GenericMetadata) :
    convert_metadata_to_xml syn md none =
      ((viewPipeline syn md).1.build, (viewPipeline syn md).2) := by
  simp only [convert_metadata_to_xml, viewPipeline, indentTree]
  rw [init_build, clearAuthors_build, creditsStep_build, sequenceStep_build, titleStep_build,
    genresStep_build]
  simp only
  rw [descStep_build, weblinksStep_build, maturityStep_build, tagsStep_build,
    namesStep_build, namesStep_build, namesStep_build, idsStep_build]
  set v0 : TView := ⟨[], none, none, none⟩ with hv0
  set v1 := vClearAuthors v0 with hv1
  set v2 := vCredits syn md v1 with hv2
  set v3 := vSequence md v2 with hv3
  set v4 := vTitle md v3 with hv4
  set gm := vGenres md v4 with hgm
  set md2 := gm.2 with hmd2
  set v5 := gm.1 with hv5
  set v6 := vDesc md2 v5 with hv6
  set v7 := vWeblinks md2 v6 with hv7
  set v8 := vMaturity md2 v7 with hv8
  set v9 := vTags md2 v8 with hv9
  set v10 := vNames "characters" md2.characters v9 with hv10
  set v11 := vNames "teams" md2.teams v10 with hv11
  set v12 := vNames "locations" md2.locations v11 with hv12
  set v13 := vIds md2 v12 with hv13
  have hrest : v13.rest = ((none, none, none) :
      Option (List Element) × Option (List Element) × Option (List Element)) := by
    rw [hv13, vIds_rest, hv12, vNames_rest, hv11, vNames_rest, hv10, vNames_rest,
      hv9, vTags_rest, hv8, vMaturity_rest, hv7, vWeblinks_rest, hv6, vDesc_rest,
      hv5, hgm, vGenres_rest, hv4, vTitle_rest, hv3, vSequence_rest, hv2, vCredits_rest,
      hv1, vClearAuthors_rest, hv0]
    rfl
  have hd : v13.doc = none := congrArg (fun t => t.2.1) hrest
  rw [ensure_pub_build v13 hd]
  have h14 : TView.build { v13 with pub := some (v13.pub.getD []) } =
      (vEnsurePub v13).build := rfl
  rw [h14]
  set v14 := vEnsurePub v13 with hv14
  have hs14 : v14.pub.isSome = true := by rw [hv14]; exact vEnsurePub_pub_some v13
  rw [isbnStep_build2 md2 v14 hs14]
  set v15 := vIsbn md2 v14 with hv15
  have hs15 : v15.pub.isSome = true := by rw [hv15]; exact vIsbn_pub_some md2 v14 hs14
  rw [publisherStep_build2 md2 v15 hs15]
  set v16 := vPublisher md2 v15 with hv16
  have hs16 : v16.pub.isSome = true := by
    rw [hv16]; exact vPublisher_pub_some md2 v15 hs15
  rw [dateStep_build2 md2 v16 hs16]
  rw [notesStep_build, scanStep_build, pagesStep_build]

theorem setAttr_tag (e : Element) (k v : String) : (e.setAttr k v).tag = e.tag := by
  rcases e with ⟨t, a, x, cs⟩
  simp only [Element.setAttr]
  split <;> rfl

theorem modifySet_tag (value : String) (attribs : List (String × String))
    (cb : Bool) (e : Element) : (modifySet value attribs cb e).tag = e.tag := by
  unfold modifySet
  dsimp only
  have key : ∀ (l : List (String × String)) (e2 : Element),
      (l.foldl (fun acc kv => acc.setAttr kv.1 kv.2) e2).tag = e2.tag := by
    intro l
    induction l with
    | nil => intro e2; rfl
    | cons kv l ih =>
      intro e2
      rw [List.foldl_cons, ih, setAttr_tag]
  rcases e with ⟨t, a, x, cs⟩
  split <;> exact key attribs _

theorem mem_ensureChildList (t : String) (l : List Element) (e : Element)
    (h : e ∈ ensureChildList t l) : e ∈ l ∨ e = Element.mk t [] none [] := by
  unfold ensureChildList at h
  split at h
  · exact Or.inl h
  · rcases List.mem_append.mp h with h2 | h2
    · exact Or.inl h2
    · exact Or.inr (List.mem_singleton.mp h2)

theorem mem_editLeaf (f : Element → Element) (t : String) (l : List Element) (e : Element)
    (hf : ∀ x, (f x).tag = x.tag) (h : e ∈ (editLeaf f t l).1) :
    e ∈ l ∨ e.tag = t := by
  induction l with
  | nil => exact Or.inl (by simpa [editLeaf] using h)
  | cons c cs ih =>
    unfold editLeaf at h
    split at h
    · rcases List.mem_cons.mp h with h2 | h2
      · subst h2
        right
        rw [hf]
        assumption
      · exact Or.inl (List.mem_cons_of_mem c h2)
    · rcases List.mem_cons.mp h with h2 | h2
      · exact Or.inl (h2 ▸ List.mem_cons_self c cs)
      · rcases ih h2 with h3 | h3
        · exact Or.inl (List.mem_cons_of_mem c h3)
        · exact Or.inr h3

theorem ensureChildList_no_match (t : String) (l : List Element)
    (h : l.any (fun c => c.tag = t) = false) :
    ensureChildList t l = l ++ [Element.mk t [] none []] := by
  unfold ensureChildList
  rw [h]
  rfl

theorem editLeaf_append_fresh (f : Element → Element) (t : String) (l : List Element)
    (x : Element) (h : ∀ e ∈ l, ¬ e.tag = t) (hx : x.tag = t) :
    (editLeaf f t (l ++ [x])).1 = l ++ [f x] := by
  induction l with
  | nil => simp [editLeaf, hx]
  | cons c cs ih =>
    have hc : ¬ c.tag = t := h c (List.mem_cons_self c cs)
    simp only [List.cons_append]
    unfold editLeaf
    rw [if_neg hc]
    simp only [List.cons_append, List.cons.injEq, true_and]
    exact ih (fun e he => h e (List.mem_cons_of_mem c he))

theorem vNotes_pub (md : GenericMetadata) (v : TView) : (vNotes md v).pub = v.pub := by
  unfold vNotes vEnsureDocChild
  split <;> rfl

theorem vScan_pub (md : GenericMetadata) (v : TView) : (vScan md v).pub = v.pub := by
  unfold vScan vEnsureDocChild
  split <;> rfl

theorem vAddPage_pub (lang : Option String) (page : PageMetadata) (old : Option Element)
    (is_cover : Bool) (v : TView) : (vAddPage lang page old is_cover v).pub = v.pub := by
  unfold vAddPage
  dsimp only
  split <;> rfl

theorem vPages_pub (md : GenericMetadata) (v : TView) : (vPages md v).1.pub = v.pub := by
  unfold vPages
  dsimp only
  have key : ∀ (ips : List (Nat × PageMetadata)) (vv : TView),
      (ips.foldl (fun vv ip => vAddPage md.language ip.2
        (dictGet (vPageDict { v with body := some (v.body.getD []) }) ip.2.filename)
        (ip.1 = 0) vv) vv).pub = vv.pub := by
    intro ips
    induction ips with
    | nil => intro vv; rfl
    | cons ip ips ih =>
      intro vv
      rw [List.foldl_cons, ih, vAddPage_pub]
  split <;> rw [key] <;> rfl

theorem vModifyPub_mem (t val : String) (attribs : List (String × String)) (cb : Bool)
    (v : TView) (e : Element) (h : e ∈ ((vModifyPub t val attribs cb v).pub.getD [])) :
    e ∈ (v.pub.getD []) ∨ e.tag = t := by
  unfold vModifyPub at h
  dsimp only at h
  rcases mem_editLeaf _ t _ e (fun x => modifySet_tag val attribs cb x) h with h2 | h2
  · rcases mem_ensureChildList t _ e h2 with h3 | h3
    · exact Or.inl h3
    · subst h3
      exact Or.inr rfl
  · exact Or.inr h2

theorem vIsbn_mem (md : GenericMetadata) (v : TView) (e : Element)
    (h : e ∈ ((vIsbn md v).pub.getD [])) : e ∈ (v.pub.getD []) ∨ e.tag = "isbn" := by
  unfold vIsbn at h
  split at h
  · exact vModifyPub_mem _ _ _ _ v e h
  · exact Or.inl h

theorem vPublisher_mem (md : GenericMetadata) (v : TView) (e : Element)
    (h : e ∈ ((vPublisher md v).pub.getD [])) :
    e ∈ (v.pub.getD []) ∨ e.tag = "publisher" := by
  unfold vPublisher at h
  split at h
  · split at h
    · exact vModifyPub_mem _ _ _ _ v e h
    · exact vModifyPub_mem _ _ _ _ v e h
  · dsimp only at h
    exact Or.inl (List.mem_of_mem_filter h)

theorem pipeline_pubdate (syn : SynTables) (md : GenericMetadata)
    (hy : truthyI md.year = true) :
    ∃ cs,
      (viewPipeline syn md).1.pub = some cs ∧
      cs.filter (fun c => c.tag = "publish-date") =
        [Element.mk "publish-date"
          [("value", pad4 (if md.year.getD 0 < 50 then 2000 + md.year.getD 0
              else if md.year.getD 0 < 100 then 1900 + md.year.getD 0 else md.year.getD 0) ++
            "-" ++ pad2 (pyOrI md.month 1) ++ "-" ++ pad2 (pyOrI md.day 1))]
          (some (pad4 (if md.year.getD 0 < 50 then 2000 + md.year.getD 0
              else if md.year.getD 0 < 100 then 1900 + md.year.getD 0 else md.year.getD 0) ++
            "-" ++ pad2 (pyOrI md.month 1) ++ "-" ++ pad2 (pyOrI md.day 1))) []] := by
  simp only [viewPipeline]
  rw [vPages_pub, vScan_pub, vNotes_pub]
  set v0 : TView := ⟨[], none, none, none⟩ with hv0
  set v1 := vClearAuthors v0 with hv1
  set v2 := vCredits syn md v1 with hv2
  set v3 := vSequence md v2 with hv3
  set v4 := vTitle md v3 with hv4
  set gm := vGenres md v4 with hgm
  set md2 := gm.2 with hmd2
  set v5 := gm.1 with hv5
  set v6 := vDesc md2 v5 with hv6
  set v7 := vWeblinks md2 v6 with hv7
  set v8 := vMaturity md2 v7 with hv8
  set v9 := vTags md2 v8 with hv9
  set v10 := vNames "characters" md2.characters v9 with hv10
  set v11 := vNames "teams" md2.teams v10 with hv11
  set v12 := vNames "locations" md2.locations v11 with hv12
  set v13 := vIds md2 v12 with hv13
  have hrest : v13.rest = ((none, none, none) :
      Option (List Element) × Option (List Element) × Option (List Element)) := by
    rw [hv13, vIds_rest, hv12, vNames_rest, hv11, vNames_rest, hv10, vNames_rest,
      hv9, vTags_rest, hv8, vMaturity_rest, hv7, vWeblinks_rest, hv6, vDesc_rest,
      hv5, hgm, vGenres_rest, hv4, vTitle_rest, hv3, vSequence_rest, hv2, vCredits_rest,
      hv1, vClearAuthors_rest, hv0]
    rfl
  have h13 : v13.pub = none := congrArg (fun t => t.1) hrest
  set v14 := vEnsurePub v13 with hv14
  have hpub14 : v14.pub = some [] := by
    rw [hv14]
    show some (v13.pub.getD []) = some []
    rw [h13]
    rfl
  set v15 := vIsbn md2 v14 with hv15
  set v16 := vPublisher md2 v15 with hv16
  have v16mem : ∀ e ∈ (v16.pub.getD []), e.tag = "isbn" ∨ e.tag = "publisher" := by
    intro e he
    rw [hv16] at he
    rcases vPublisher_mem md2 v15 e he with h | h
    · rw [hv15] at h
      rcases vIsbn_mem md2 v14 e h with h2 | h2
      · rw [hpub14] at h2
        simp at h2
      · exact Or.inl h2
    · exact Or.inr h
  have hfacts : ∀ e ∈ (v16.pub.getD []), ¬ e.tag = "publish-date" := by
    intro e he
    rcases v16mem e he with h | h <;> simp [h]
  have hno : ((v16.pub.getD []).any (fun c => c.tag = "publish-date")) = false := by
    rw [List.any_eq_false]
    intro x hx
    simpa using hfacts x hx
  have hy2 : truthyI md2.year = true := hy
  unfold vDate
  rw [if_pos hy2]
  unfold vModifyPub
  dsimp only
  rw [ensureChildList_no_match _ _ hno]
  rw [editLeaf_append_fresh _ "publish-date" _ (Element.mk "publish-date" [] none [])
    hfacts rfl]
  refine ⟨_, rfl, ?_⟩
  rw [List.filter_append]
  have h1 : (v16.pub.getD []).filter (fun c => c.tag = "publish-date") = [] := by
    rw [List.filter_eq_nil_iff]
    intro a ha
    simpa using hfacts a ha
  rw [h1]
  simp only [List.nil_append]
  rfl

/-- Claim C8: for every record whose year is present and non-zero (Python truthiness
guards the section), the fresh write emits a `publish-date` element whose text
and `value` attribute both hold the normalized zero-padded YYYY-MM-DD string:
two-digit years below 50 gain 2000, years 50-99 gain 1900, and missing or zero
month and day fall back to 1. -/
theorem c8_date_text_value_normalized (syn : SynTables) (md : GenericMetadata)
    (hy : truthyI md.year = true) :
    ∃ e s,
      findPath ["meta-data", "publish-info", "publish-date"]
        (convert_metadata_to_xml syn md none).1 = some e ∧
      e.text = some s ∧ e.get "value" = some s ∧
      s = pad4 (if md.year.getD 0 < 50 then 2000 + md.year.getD 0
            else if md.year.getD 0 < 100 then 1900 + md.year.getD 0 else md.year.getD 0) ++
          "-" ++ pad2 (pyOrI md.month 1) ++ "-" ++ pad2 (pyOrI md.day 1) := by
  obtain ⟨cs, hpub, hfil⟩ := pipeline_pubdate syn md hy
  rw [convert_eq_build]
  have hfind : findPath ["meta-data", "publish-info", "publish-date"]
      ((viewPipeline syn md).1.build) =
      ((((viewPipeline syn md).1.pub).getD []).filter
        (fun c => c.tag = "publish-date")).head? := by
    unfold findPath
    rw [findAllPath_pub_build]
  simp only
  rw [hfind, hpub]
  simp only [Option.getD_some]
  rw [hfil]
  exact ⟨_, _, rfl, rfl, rfl, rfl⟩

theorem c8_date_text_value_normalized_witness :
    truthyI (some (5 : Int)) = true ∧
    ∃ e s,
      findPath ["meta-data", "publish-info", "publish-date"]
        (convert_metadata_to_xml trivSyn { GenericMetadata.empty with year := some 5 }
          none).1 = some e ∧
      e.text = some s ∧ e.get "value" = some s ∧
      s = pad4 (if ((some (5 : Int)).getD 0) < 50 then 2000 + (some (5 : Int)).getD 0
            else if ((some (5 : Int)).getD 0) < 100 then 1900 + (some (5 : Int)).getD 0
            else (some (5 : Int)).getD 0) ++
          "-" ++ pad2 (pyOrI none 1) ++ "-" ++ pad2 (pyOrI none 1) :=
  ⟨by decide, c8_date_text_value_normalized trivSyn
    { GenericMetadata.empty with year := some 5 } (by decide)⟩

theorem insByKey_perm {α : Type} (key : α → Nat) (x : α) (l : List α) :
    (insByKey key x l).Perm (x :: l) := by
  induction l with
  | nil => exact List.Perm.refl _
  | cons y ys ih =>
    unfold insByKey
    split
    · exact List.Perm.refl _
    · exact ((ih.cons y).trans (List.Perm.swap x y ys))

theorem pySortedByKey_perm {α : Type} (key : α → Nat) (l : List α) :
    (pySortedByKey key l).Perm l := by
  unfold pySortedByKey
  induction l with
  | nil => exact List.Perm.refl _
  | cons a t ih =>
    simp only [List.foldr_cons]
    exact (insByKey_perm key a _).trans (ih.cons a)

theorem mem_insByKey {α : Type} (key : α → Nat) (x a : α) (l : List α)
    (h : a ∈ insByKey key x l) : a = x ∨ a ∈ l := by
  have := (insByKey_perm key x l).mem_iff.mp h
  simpa using this

theorem insByKey_pairwise {α : Type} (key : α → Nat) (x : α) (l : List α)
    (h : l.Pairwise (fun a b => key a ≤ key b)) :
    (insByKey key x l).Pairwise (fun a b => key a ≤ key b) := by
  induction l with
  | nil => simp [insByKey]
  | cons y ys ih =>
    rcases List.pairwise_cons.mp h with ⟨hy, hys⟩
    unfold insByKey
    split
    · rename_i hc
      refine List.pairwise_cons.mpr ⟨?_, h⟩
      intro b hb
      rcases List.mem_cons.mp hb with hb | hb
      · exact hb ▸ hc
      · exact le_trans hc (hy b hb)
    · rename_i hc
      have hyx : key y ≤ key x := le_of_not_le hc
      refine List.pairwise_cons.mpr ⟨?_, ih hys⟩
      intro b hb
      rcases mem_insByKey key x b ys hb with hb | hb
      · exact hb ▸ hyx
      · exact hy b hb

theorem pySortedByKey_pairwise {α : Type} (key : α → Nat) (l : List α) :
    (pySortedByKey key l).Pairwise (fun a b => key a ≤ key b) := by
  unfold pySortedByKey
  induction l with
  | nil => simp
  | cons a t ih =>
    simp only [List.foldr_cons]
    exact insByKey_pairwise key a _ ih

theorem pySortedByKey_head_zero {α : Type} [DecidableEq α] (key : α → Nat)
    (l : List α) (p : α) (hz : l.filter (fun q => key q = 0) = [p]) :
    ∃ qs, pySortedByKey key l = p :: qs ∧ qs.filter (fun q => key q = 0) = [] := by
  have hperm := pySortedByKey_perm key l
  have hfil : (pySortedByKey key l).filter (fun q => key q = 0) = [p] :=
    List.perm_singleton.mp ((hperm.filter _).trans (hz ▸ List.Perm.refl _))
  have hpair := pySortedByKey_pairwise key l
  cases hs : pySortedByKey key l with
  | nil => rw [hs] at hfil; simp at hfil
  | cons h t =>
    rw [hs] at hfil hpair
    rcases List.pairwise_cons.mp hpair with ⟨hle, _⟩
    have hp_mem : p ∈ (h :: t).filter (fun q => key q = 0) := by rw [hfil]; simp
    have hkp : key p = 0 := by
      have := List.of_mem_filter hp_mem
      simpa using this
    have hkh : key h = 0 := by
      rcases List.mem_cons.mp (List.mem_of_mem_filter hp_mem) with he | he
      · exact he ▸ hkp
      · exact Nat.le_zero.mp (hkp ▸ hle p he)
    have hfh : (h :: t).filter (fun q => key q = 0) = h :: t.filter (fun q => key q = 0) := by
      simp [List.filter_cons, hkh]
    rw [hfh] at hfil
    rcases List.cons.injEq h _ p [] ▸ hfil with ⟨he, ht⟩
    exact ⟨t, by rw [he], ht⟩

theorem mem_removeFirstBy (p : Element → Bool) (l : List Element) (e : Element)
    (h : e ∈ removeFirstBy p l) : e ∈ l := by
  induction l with
  | nil => simpa [removeFirstBy] using h
  | cons c cs ih =>
    unfold removeFirstBy at h
    split at h
    · exact List.mem_cons_of_mem c h
    · rcases List.mem_cons.mp h with h2 | h2
      · exact h2 ▸ List.mem_cons_self c cs
      · exact List.mem_cons_of_mem c (ih h2)

theorem mem_mapLast (f : Element → Element) (l : List Element) (e : Element)
    (h : e ∈ mapLast f l) : e ∈ l ∨ ∃ c ∈ l, e = f c := by
  induction l with
  | nil => simpa [mapLast] using h
  | cons c cs ih =>
    cases cs with
    | nil =>
      simp only [mapLast, List.mem_singleton] at h
      exact Or.inr ⟨c, List.mem_singleton.mpr rfl, h⟩
    | cons c2 cs2 =>
      simp only [mapLast] at h
      rcases List.mem_cons.mp h with h2 | h2
      · exact Or.inl (h2 ▸ List.mem_cons_self c _)
      · rcases ih h2 with h3 | ⟨d, hd, he⟩
        · exact Or.inl (List.mem_cons_of_mem c h3)
        · exact Or.inr ⟨d, List.mem_cons_of_mem c hd, he⟩

theorem add_credit_elt_tag (person role : String) (lang : Option String) (a : Element)
    (h : add_credit_elt person role lang = some a) : a.tag = "author" := by
  unfold add_credit_elt at h
  dsimp only at h
  split at h
  · exact absurd h (by simp)
  · rw [← Option.some.inj h]
    rfl

theorem biSafe_setAttr (e : Element) (k v : String) (h : biSafe e) :
    biSafe (e.setAttr k v) := by
  unfold biSafe at h ⊢
  rw [setAttr_tag]
  exact h

theorem vClearAuthors_safe (v : TView) (h : ∀ e ∈ v.bi, biSafe e) :
    ∀ e ∈ (vClearAuthors v).bi, biSafe e :=
  fun e he => h e (List.mem_of_mem_filter he)

theorem vCredits_safe (syn : SynTables) (md : GenericMetadata) (v : TView)
    (h : ∀ e ∈ v.bi, biSafe e) : ∀ e ∈ (vCredits syn md v).bi, biSafe e := by
  unfold vCredits
  induction md.credits generalizing v with
  | nil => exact h
  | cons c cs ih =>
    simp only [List.foldl_cons]
    rcases ha : add_credit_elt c.person (roleDispatch syn c).1 (roleDispatch syn c).2
      with _ | a
    · exact ih v h
    · refine ih _ ?_
      intro e he
      rcases List.mem_append.mp he with h2 | h2
      · exact h e h2
      · have := add_credit_elt_tag _ _ _ a ha
        rw [List.mem_singleton.mp h2]
        exact ⟨by rw [this]; decide, by rw [this]; decide, by
          show ¬ pyStartsWith (Element.tag _) _ = true
          rw [this]
          decide⟩

theorem biSafe_mk (t : String) (a : List (String × String)) (x : Option String)
    (cs : List Element) (h1 : ¬ t = "coverpage") (h2 : ¬ t = "languages")
    (h3 : ¬ pyStartsWith t "\x7b" = true) :
    biSafe (Element.mk t a x cs) := ⟨h1, h2, h3⟩

theorem vSequence_safe (md : GenericMetadata) (v : TView) (h : ∀ e ∈ v.bi, biSafe e) :
    ∀ e ∈ (vSequence md v).bi, biSafe e := by
  intro e he
  unfold vSequence at he
  dsimp only at he
  split at he
  · split at he
    · rcases List.mem_append.mp he with h2 | h2
      · exact h e h2
      · rw [List.mem_singleton.mp h2]
        exact biSafe_mk _ _ _ _ (by decide) (by decide) (by decide)
    · dsimp only at he
      rcases List.mem_append.mp he with h2 | h2
      · exact h e (List.mem_of_mem_filter h2)
      · rw [List.mem_singleton.mp h2]
        exact biSafe_mk _ _ _ _ (by decide) (by decide) (by decide)
  · exact h e he

theorem vTitle_safe (md : GenericMetadata) (v : TView) (h : ∀ e ∈ v.bi, biSafe e) :
    ∀ e ∈ (vTitle md v).bi, biSafe e := by
  intro e he
  unfold vTitle at he
  dsimp only at he
  split at he
  · rcases List.mem_append.mp he with h2 | h2
    · rcases List.mem_map.mp h2 with ⟨c, hc, he2⟩
      subst he2
      split
      · split
        · exact ⟨(h c hc).1, (h c hc).2.1, (h c hc).2.2⟩
        · exact h c hc
      · exact h c hc
    · rw [List.mem_singleton.mp h2]
      exact biSafe_mk _ _ _ _ (by decide) (by decide) (by decide)
  · exact h e he

theorem vGenres_safe (md : GenericMetadata) (v : TView) (h : ∀ e ∈ v.bi, biSafe e) :
    ∀ e ∈ (vGenres md v).1.bi, biSafe e := by
  unfold vGenres
  dsimp only
  generalize (if (match md.manga with
      | some m => pyStartsWith (pyCasefold m) "yes"
      | none => false) = true
    then listAdd md.genres "manga" else md.genres) = gs
  generalize hv1 : ({ v with bi := v.bi.filter (fun c => ¬ c.tag = "genre") } : TView) = v1
  have h1 : ∀ e ∈ v1.bi, biSafe e := by
    intro e he
    rw [← hv1] at he
    exact h e (List.mem_of_mem_filter he)
  clear hv1
  induction gs generalizing v1 with
  | nil => exact h1
  | cons g gs ih =>
    simp only [List.foldl_cons]
    refine ih _ ?_
    dsimp only
    intro e he
    repeat' split at he
    all_goals
      first
      | exact h1 e he
      | exact (List.mem_append.mp he).elim (fun h2 => h1 e h2)
          (fun h2 => by
            rw [List.mem_singleton.mp h2]
            exact biSafe_mk _ _ _ _ (by decide) (by decide) (by decide))

theorem vDesc_safe (md : GenericMetadata) (v : TView) (h : ∀ e ∈ v.bi, biSafe e) :
    ∀ e ∈ (vDesc md v).bi, biSafe e := by
  intro e he
  unfold vDesc at he
  dsimp only at he
  split at he
  · split at he
    · exact h e he
    · have hbase : ∀ x ∈ v.bi ++ [Element.mk "annotation" [] none
          ((pySplitOn (md.description.getD "") "\n\n").map
            (fun t => mkChild "p" (some t) []))], biSafe x := by
        intro x hx
        rcases List.mem_append.mp hx with h2 | h2
        · exact h x h2
        · rw [List.mem_singleton.mp h2]
          exact biSafe_mk _ _ _ _ (by decide) (by decide) (by decide)
      split at he
      · rcases mem_mapLast _ _ _ he with h2 | ⟨c, hc, he2⟩
        · exact hbase e (mem_removeFirstBy _ _ _ h2)
        · rw [he2]
          exact biSafe_setAttr _ _ _ (hbase c (mem_removeFirstBy _ _ _ hc))
      · exact hbase e he
  · exact h e he

theorem vWeblinks_safe (md : GenericMetadata) (v : TView) (h : ∀ e ∈ v.bi, biSafe e) :
    ∀ e ∈ (vWeblinks md v).bi, biSafe e := by
  unfold vWeblinks
  dsimp only
  split
  · generalize hv1 : ({ v with bi := v.bi.filter _ } : TView) = v1
    have h1 : ∀ e ∈ v1.bi, biSafe e := by
      intro e he
      rw [← hv1] at he
      exact h e (List.mem_of_mem_filter he)
    clear hv1
    induction md.web_links generalizing v1 with
    | nil => exact h1
    | cons w ws ih =>
      simp only [List.foldl_cons]
      refine ih _ ?_
      intro e he
      rcases List.mem_append.mp he with h2 | h2
      · exact h1 e h2
      · rw [List.mem_singleton.mp h2]
        exact biSafe_mk _ _ _ _ (by decide) (by decide) (by decide)
  · exact h

theorem vMaturity_safe (md : GenericMetadata) (v : TView) (h : ∀ e ∈ v.bi, biSafe e) :
    ∀ e ∈ (vMaturity md v).bi, biSafe e := by
  intro e he
  unfold vMaturity at he
  dsimp only at he
  split at he
  · split at he
    · exact h e he
    · rcases List.mem_append.mp he with h2 | h2
      · exact h e h2
      · rw [List.mem_singleton.mp h2]
        exact biSafe_mk _ _ _ _ (by decide) (by decide) (by decide)
  · exact h e he

theorem vModifyBi_safe (name value : String) (attribs : List (String × String))
    (cb : Bool) (v : TView) (hn1 : ¬ name = "coverpage") (hn2 : ¬ name = "languages")
    (hn3 : ¬ pyStartsWith name "\x7b" = true)
    (h : ∀ e ∈ v.bi, biSafe e) : ∀ e ∈ (vModifyBi name value attribs cb v).bi, biSafe e := by
  intro e he
  unfold vModifyBi at he
  dsimp only at he
  rcases mem_editLeaf _ name _ e (fun x => modifySet_tag value attribs cb x) he with h2 | h2
  · rcases mem_ensureChildList name _ e h2 with h3 | h3
    · exact h e h3
    · rw [h3]
      exact ⟨hn1, hn2, hn3⟩
  · exact ⟨by rw [h2]; exact hn1, by rw [h2]; exact hn2, by rw [h2]; exact hn3⟩

theorem vTags_safe (md : GenericMetadata) (v : TView) (h : ∀ e ∈ v.bi, biSafe e) :
    ∀ e ∈ (vTags md v).bi, biSafe e := by
  unfold vTags
  split
  · exact vModifyBi_safe _ _ _ _ v (by decide) (by decide) (by decide) h
  · exact h

theorem vNames_safe (containerTag : String) (names : List (Option String)) (v : TView)
    (hn1 : ¬ containerTag = "coverpage") (hn2 : ¬ containerTag = "languages")
    (hn3 : ¬ pyStartsWith containerTag "\x7b" = true)
    (h : ∀ e ∈ v.bi, biSafe e) : ∀ e ∈ (vNames containerTag names v).bi, biSafe e := by
  unfold vNames
  split
  · intro e he
    dsimp only at he
    rcases mem_editLeaf
        (fun e => Element.mk e.tag [] none (List.map (fun c => mkChild "name" c []) names))
        containerTag _ e (fun x => rfl) he with h2 | h2
    · rcases mem_ensureChildList containerTag _ e h2 with h3 | h3
      · exact h e h3
      · rw [h3]
        exact ⟨hn1, hn2, hn3⟩
    · exact ⟨by rw [h2]; exact hn1, by rw [h2]; exact hn2, by rw [h2]; exact hn3⟩
  · exact h

theorem vIds_safe (md : GenericMetadata) (v : TView) (h : ∀ e ∈ v.bi, biSafe e) :
    ∀ e ∈ (vIds md v).bi, biSafe e := by
  intro e he
  unfold vIds at he
  dsimp only at he
  repeat' split at he
  all_goals
    first
    | exact h e he
    | exact (List.mem_append.mp he).elim (fun h2 => h e h2)
        (fun h2 => by
          rw [List.mem_singleton.mp h2]
          exact biSafe_mk _ _ _ _ (by decide) (by decide) (by decide))
    | exact (List.mem_append.mp he).elim
        (fun h2 => (List.mem_append.mp h2).elim (fun h3 => h e h3)
          (fun h3 => by
            rw [List.mem_singleton.mp h3]
            exact biSafe_mk _ _ _ _ (by decide) (by decide) (by decide)))
        (fun h2 => by
          rw [List.mem_singleton.mp h2]
          exact biSafe_mk _ _ _ _ (by decide) (by decide) (by decide))

theorem vEnsurePub_bi (v : TView) : (vEnsurePub v).bi = v.bi := rfl

theorem vIsbn_bi (md : GenericMetadata) (v : TView) : (vIsbn md v).bi = v.bi := by
  unfold vIsbn vModifyPub
  split <;> rfl

theorem vPublisher_bi (md : GenericMetadata) (v : TView) : (vPublisher md v).bi = v.bi := by
  unfold vPublisher vModifyPub
  repeat' split
  all_goals rfl

theorem vDate_bi (md : GenericMetadata) (v : TView) : (vDate md v).bi = v.bi := by
  unfold vDate vModifyPub
  split <;> rfl

theorem vNotes_bi (md : GenericMetadata) (v : TView) : (vNotes md v).bi = v.bi := by
  unfold vNotes vEnsureDocChild
  split <;> rfl

theorem vScan_bi (md : GenericMetadata) (v : TView) : (vScan md v).bi = v.bi := by
  unfold vScan vEnsureDocChild
  split <;> rfl

theorem vEnsurePub_body (v : TView) : (vEnsurePub v).body = v.body := rfl

theorem vIsbn_body (md : GenericMetadata) (v : TView) : (vIsbn md v).body = v.body := by
  unfold vIsbn vModifyPub
  split <;> rfl

theorem vPublisher_body (md : GenericMetadata) (v : TView) :
    (vPublisher md v).body = v.body := by
  unfold vPublisher vModifyPub
  repeat' split
  all_goals rfl

theorem vDate_body (md : GenericMetadata) (v : TView) : (vDate md v).body = v.body := by
  unfold vDate vModifyPub
  split <;> rfl

theorem vNotes_body (md : GenericMetadata) (v : TView) : (vNotes md v).body = v.body := by
  unfold vNotes vEnsureDocChild
  split <;> rfl

theorem vScan_body (md : GenericMetadata) (v : TView) : (vScan md v).body = v.body := by
  unfold vScan vEnsureDocChild
  split <;> rfl

theorem stripNsL_append (a b : List Element) :
    stripNsL (a ++ b) = stripNsL a ++ stripNsL b := by
  induction a with
  | nil => rfl
  | cons c cs ih =>
    simp only [List.cons_append, stripNsL]
    exact congrArg (List.cons (stripNs c)) ih

theorem stripNs_tag (e : Element) : (stripNs e).tag = stripTag e.tag := by
  cases e
  rfl

theorem mem_stripNsL (l : List Element) (e : Element) (h : e ∈ stripNsL l) :
    ∃ c ∈ l, e = stripNs c := by
  induction l with
  | nil => simpa [stripNsL] using h
  | cons c cs ih =>
    rcases List.mem_cons.mp h with h2 | h2
    · exact ⟨c, List.mem_cons_self c cs, h2⟩
    · rcases ih h2 with ⟨d, hd, he⟩
      exact ⟨d, List.mem_cons_of_mem c hd, he⟩

theorem stripNs_build (v : TView) :
    stripNs (TView.build v) =
      TView.build ⟨stripNsL v.bi, v.pub.map stripNsL, v.doc.map stripNsL,
        v.body.map stripNsL⟩ := by
  cases hp : v.pub <;> cases hd : v.doc <;> cases hb : v.body <;>
    simp [TView.build, stripNs, stripNsL, stripTag, pubPart, docPart, bodyPart,
      hp, hd, hb, stripNsL_append] <;> decide

theorem enumFrom_fst_ge {α : Type} (n : Nat) (l : List α) (x : Nat × α)
    (h : x ∈ List.enumFrom n l) : n ≤ x.1 := by
  induction l generalizing n with
  | nil => simp [List.enumFrom] at h
  | cons a t ih =>
    rcases List.mem_cons.mp h with h2 | h2
    · rw [h2]
    · exact Nat.le_of_succ_le (ih (n + 1) h2)

theorem enumFrom_snd_mem {α : Type} (n : Nat) (l : List α) (x : Nat × α)
    (h : x ∈ List.enumFrom n l) : x.2 ∈ l := by
  induction l generalizing n with
  | nil => simp [List.enumFrom] at h
  | cons a t ih =>
    rcases List.mem_cons.mp h with h2 | h2
    · rw [h2]
      exact List.mem_cons_self a t
    · exact List.mem_cons_of_mem a (ih (n + 1) h2)

theorem find_append_left_none {α : Type} (p : α → Bool) (l1 l2 : List α)
    (h : l1.find? p = none) : (l1 ++ l2).find? p = l2.find? p := by
  induction l1 with
  | nil => rfl
  | cons c cs ih =>
    rcases List.find?_eq_none.mp h c (List.mem_cons_self c cs) with hc
    rw [List.cons_append, List.find?_cons_of_neg _ (by simpa using hc),
      ih (List.find?_eq_none.mpr (fun x hx => List.find?_eq_none.mp h x
        (List.mem_cons_of_mem c hx)))]

theorem vAddPage_false_bi (lang : Option String) (page : PageMetadata)
    (old : Option Element) (v : TView) : (vAddPage lang page old false v).bi = v.bi := rfl

theorem vAddPage_true_body (lang : Option String) (page : PageMetadata)
    (old : Option Element) (v : TView) : (vAddPage lang page old true v).body = v.body := rfl

theorem addPageFoldV_bi (lang : Option String) (dict : List (String × Element))
    (ips : List (Nat × PageMetadata)) (v : TView) (h : ∀ ip ∈ ips, ¬ ip.1 = 0) :
    (ips.foldl (fun vv ip => vAddPage lang ip.2 (dictGet dict ip.2.filename)
      (ip.1 = 0) vv) v).bi = v.bi := by
  induction ips generalizing v with
  | nil => rfl
  | cons ip ips ih =>
    rw [List.foldl_cons]
    have hd : (decide (ip.1 = 0)) = false :=
      decide_eq_false (h ip (List.mem_cons_self ip ips))
    rw [hd, ih _ (fun x hx => h x (List.mem_cons_of_mem ip hx)), vAddPage_false_bi]

theorem vAddPage_none_body_mem (lang : Option String) (page : PageMetadata) (b : Bool)
    (v : TView) (e : Element)
    (he : e ∈ ((vAddPage lang page none b v).body.getD [])) :
    e ∈ (v.body.getD []) ∨
      e.children.find? (fun ch => ch.tag = "image") =
        some (mkChild "image" none [("href", page.filename)]) := by
  cases b with
  | true => exact Or.inl he
  | false =>
    by_cases hb : page.bookmark = ""
    · have hx : (vAddPage lang page none false v).body =
          some ((v.body.getD []) ++ [Element.mk "page" [] none
            [mkChild "image" none [("href", page.filename)]]]) := by
        simp [vAddPage, hb]
      rw [hx] at he
      simp only [Option.getD_some] at he
      rcases List.mem_append.mp he with h2 | h2
      · exact Or.inl h2
      · right
        rw [List.mem_singleton.mp h2]
        simp only [Element.children]
        rw [List.find?_cons_of_pos _ (by rfl)]
    · have hx : (vAddPage lang page none false v).body =
          some ((v.body.getD []) ++ [Element.mk "page" [] none
            [mkChild "image" none [("href", page.filename)],
             mkChild "title" (some page.bookmark)
               (if truthyS lang = true then [("lang", lang.getD "")] else [])]]) := by
        simp [vAddPage, hb, Element.withChildren, Element.children]
      rw [hx] at he
      simp only [Option.getD_some] at he
      rcases List.mem_append.mp he with h2 | h2
      · exact Or.inl h2
      · right
        rw [List.mem_singleton.mp h2]
        simp only [Element.children]
        rw [List.find?_cons_of_pos _ (by rfl)]

theorem addPageFold_body_prop (lang : Option String) (ips : List (Nat × PageMetadata))
    (v : TView) (P : Element → Prop)
    (hv : ∀ e ∈ (v.body.getD []), P e)
    (hP : ∀ ip ∈ ips, ∀ e, e.children.find? (fun ch => ch.tag = "image") =
        some (mkChild "image" none [("href", ip.2.filename)]) → P e) :
    ∀ e ∈ ((ips.foldl (fun vv ip => vAddPage lang ip.2
        (dictGet ([] : List (String × Element)) ip.2.filename)
        (ip.1 = 0) vv) v).body.getD []), P e := by
  induction ips generalizing v with
  | nil => exact hv
  | cons ip ips ih =>
    rw [List.foldl_cons]
    refine ih _ ?_ (fun x hx => hP x (List.mem_cons_of_mem ip hx))
    intro e he
    rcases vAddPage_none_body_mem lang ip.2 (decide (ip.1 = 0)) v e he with h2 | h2
    · exact hv e h2
    · exact hP ip (List.mem_cons_self ip ips) e h2

theorem vAddPage_true_cover (lang : Option String) (page : PageMetadata) (v : TView) :
    ∃ tl, vAddPage lang page none true v =
      { v with bi := v.bi ++ [Element.mk "coverpage" [] none
        (mkChild "image" none [("href", page.filename)] :: tl)] } := by
  by_cases hb : page.bookmark = ""
  · exact ⟨[], by simp [vAddPage, hb, Element.attrib, Element.text, Element.children]⟩
  · exact ⟨[mkChild "title" (some page.bookmark)
      (if truthyS lang = true then [("lang", lang.getD "")] else [])],
      by simp [vAddPage, hb, Element.withChildren, Element.children, Element.attrib,
        Element.text]⟩

theorem addPageFold_body_isSome (lang : Option String) (dict : List (String × Element))
    (ips : List (Nat × PageMetadata)) (v : TView) (bs : List Element)
    (hb : v.body = some bs) :
    ∃ bs2, (ips.foldl (fun vv ip => vAddPage lang ip.2 (dictGet dict ip.2.filename)
      (ip.1 = 0) vv) v).body = some bs2 := by
  induction ips generalizing v bs with
  | nil => exact ⟨bs, hb⟩
  | cons ip ips ih =>
    rw [List.foldl_cons]
    rcases vAddPage_body_some lang ip.2 (dictGet dict ip.2.filename) (decide (ip.1 = 0))
      v bs hb with ⟨bs2, hb2⟩
    exact ih _ bs2 hb2

theorem pipeline_cover (syn : SynTables) (md : GenericMetadata) (p : PageMetadata)
    (hz : md.pages.filter (fun q => q.display_index = 0) = [p]) :
    ∃ biPre tl bodyL,
      (viewPipeline syn md).1.bi = biPre ++ [Element.mk "coverpage" [] none
        (mkChild "image" none [("href", p.filename)] :: tl)] ∧
      (∀ e ∈ biPre, biSafe e) ∧
      (viewPipeline syn md).1.body = some bodyL ∧
      ∀ e ∈ bodyL, ∃ q ∈ md.pages, ¬ q.display_index = 0 ∧
        e.children.find? (fun ch => ch.tag = "image") =
          some (mkChild "image" none [("href", q.filename)]) := by
  simp only [viewPipeline]
  set v0 : TView := ⟨[], none, none, none⟩ with hv0
  set v1 := vClearAuthors v0 with hv1
  set v2 := vCredits syn md v1 with hv2
  set v3 := vSequence md v2 with hv3
  set v4 := vTitle md v3 with hv4
  set gm := vGenres md v4 with hgm
  set md2 := gm.2 with hmd2
  set v5 := gm.1 with hv5
  set v6 := vDesc md2 v5 with hv6
  set v7 := vWeblinks md2 v6 with hv7
  set v8 := vMaturity md2 v7 with hv8
  set v9 := vTags md2 v8 with hv9
  set v10 := vNames "characters" md2.characters v9 with hv10
  set v11 := vNames "teams" md2.teams v10 with hv11
  set v12 := vNames "locations" md2.locations v11 with hv12
  set v13 := vIds md2 v12 with hv13
  set v14 := vEnsurePub v13 with hv14
  set v15 := vIsbn md2 v14 with hv15
  set v16 := vPublisher md2 v15 with hv16
  set v17 := vDate md2 v16 with hv17
  set v18 := vNotes md2 v17 with hv18
  set v19 := vScan md2 v18 with hv19
  have hrest : v13.rest = ((none, none, none) :
      Option (List Element) × Option (List Element) × Option (List Element)) := by
    rw [hv13, vIds_rest, hv12, vNames_rest, hv11, vNames_rest, hv10, vNames_rest,
      hv9, vTags_rest, hv8, vMaturity_rest, hv7, vWeblinks_rest, hv6, vDesc_rest,
      hv5, hgm, vGenres_rest, hv4, vTitle_rest, hv3, vSequence_rest, hv2, vCredits_rest,
      hv1, vClearAuthors_rest, hv0]
    rfl
  have hbody13 : v13.body = none := congrArg (fun t => t.2.2) hrest
  have hbody19 : v19.body = none := by
    rw [hv19, vScan_body, hv18, vNotes_body, hv17, vDate_body, hv16, vPublisher_body,
      hv15, vIsbn_body, hv14, vEnsurePub_body]
    exact hbody13
  have hs0 : ∀ e ∈ v0.bi, biSafe e := by
    rw [hv0]
    intro e he
    exact absurd he (by simp)
  have hs1 : ∀ e ∈ v1.bi, biSafe e := by rw [hv1]; exact vClearAuthors_safe v0 hs0
  have hs2 : ∀ e ∈ v2.bi, biSafe e := by rw [hv2]; exact vCredits_safe syn md v1 hs1
  have hs3 : ∀ e ∈ v3.bi, biSafe e := by rw [hv3]; exact vSequence_safe md v2 hs2
  have hs4 : ∀ e ∈ v4.bi, biSafe e := by rw [hv4]; exact vTitle_safe md v3 hs3
  have hs5 : ∀ e ∈ v5.bi, biSafe e := by rw [hv5, hgm]; exact vGenres_safe md v4 hs4
  have hs6 : ∀ e ∈ v6.bi, biSafe e := by rw [hv6]; exact vDesc_safe md2 v5 hs5
  have hs7 : ∀ e ∈ v7.bi, biSafe e := by rw [hv7]; exact vWeblinks_safe md2 v6 hs6
  have hs8 : ∀ e ∈ v8.bi, biSafe e := by rw [hv8]; exact vMaturity_safe md2 v7 hs7
  have hs9 : ∀ e ∈ v9.bi, biSafe e := by rw [hv9]; exact vTags_safe md2 v8 hs8
  have hs10 : ∀ e ∈ v10.bi, biSafe e := by
    rw [hv10]; exact vNames_safe _ _ v9 (by decide) (by decide) (by decide) hs9
  have hs11 : ∀ e ∈ v11.bi, biSafe e := by
    rw [hv11]; exact vNames_safe _ _ v10 (by decide) (by decide) (by decide) hs10
  have hs12 : ∀ e ∈ v12.bi, biSafe e := by
    rw [hv12]; exact vNames_safe _ _ v11 (by decide) (by decide) (by decide) hs11
  have hs13 : ∀ e ∈ v13.bi, biSafe e := by rw [hv13]; exact vIds_safe md2 v12 hs12
  have hs19 : ∀ e ∈ v19.bi, biSafe e := by
    rw [hv19, vScan_bi, hv18, vNotes_bi, hv17, vDate_bi, hv16, vPublisher_bi,
      hv15, vIsbn_bi, hv14, vEnsurePub_bi]
    exact hs13
  have hmp : md2.pages = md.pages := by rw [hmd2, hgm]; rfl
  have hcov : v19.bi.filter (fun c => c.tag = "coverpage") = [] :=
    List.filter_eq_nil_iff.mpr (fun e he => by simpa using (hs19 e he).1)
  unfold vPages
  dsimp only
  rw [hcov]
  simp only [List.head?]
  have hvb : (some (v19.body.getD [])).getD [] = ([] : List Element) := by
    rw [hbody19]
    rfl
  have hdict : vPageDict ⟨v19.bi, v19.pub, v19.doc, some (v19.body.getD [])⟩ = [] := by
    unfold vPageDict
    rw [hcov]
    simp only [List.head?]
    rw [hvb]
    rfl
  rw [hdict, hmp]
  obtain ⟨qs, hsorted, hqs0⟩ :=
    pySortedByKey_head_zero (fun q => q.display_index) md.pages p hz
  rw [hsorted]
  have henum : (p :: qs).enum = (0, p) :: List.enumFrom 1 qs := rfl
  rw [henum, List.foldl_cons]
  have hdg : dictGet ([] : List (String × Element)) p.filename = none := rfl
  have hdec : (decide ((0 : Nat) = 0)) = true := rfl
  rw [hdg, hdec]
  obtain ⟨tl, hcover⟩ :=
    vAddPage_true_cover md2.language p ⟨v19.bi, v19.pub, v19.doc, some []⟩
  rw [hcover]
  set vS := { (⟨v19.bi, v19.pub, v19.doc, some []⟩ : TView) with
    bi := (⟨v19.bi, v19.pub, v19.doc, some []⟩ : TView).bi ++
      [Element.mk "coverpage" [] none
        (mkChild "image" none [("href", p.filename)] :: tl)] } with hvS
  have hips : ∀ ip ∈ List.enumFrom 1 qs, ¬ ip.1 = 0 := by
    intro ip hip h0
    have := enumFrom_fst_ge 1 qs ip hip
    omega
  have hbi := addPageFoldV_bi md2.language [] (List.enumFrom 1 qs) vS hips
  have hbodyS : vS.body = some [] := by rw [hvS]
  obtain ⟨bodyL, hbodyL⟩ :=
    addPageFold_body_isSome md2.language [] (List.enumFrom 1 qs) vS [] hbodyS
  refine ⟨v19.bi, tl, bodyL, ?_, hs19, ?_, ?_⟩
  · rw [hbi, hvS]
  · exact hbodyL
  · intro e he
    have hmain := addPageFold_body_prop md2.language (List.enumFrom 1 qs) vS
      (fun x => ∃ q ∈ md.pages, ¬ q.display_index = 0 ∧
        x.children.find? (fun ch => ch.tag = "image") =
          some (mkChild "image" none [("href", q.filename)]))
      (by intro x hx; rw [hvS] at hx; exact absurd hx (by simp))
      (by
        intro ip hip x hx
        have h1 : ip.2 ∈ qs := enumFrom_snd_mem 1 qs ip hip
        refine ⟨ip.2, ?_, ?_, hx⟩
        · have h2 : ip.2 ∈ pySortedByKey (fun q => q.display_index) md.pages := by
            rw [hsorted]
            exact List.mem_cons_of_mem p h1
          exact (pySortedByKey_perm _ md.pages).mem_iff.mp h2
        · have := List.filter_eq_nil_iff.mp hqs0 ip.2 h1
          simpa using this)
    apply hmain
    rw [hbodyL]
    simpa using he

theorem findAllPath_bodyChild_build (v : TView) (x : String) :
    findAllPath ["body", x] v.build = (v.body.getD []).filter (fun c => c.tag = x) := by
  cases hp : v.pub <;> cases hd : v.doc <;> cases hb : v.body <;>
    simp [TView.build, findAllPath, pubPart, docPart, bodyPart, Element.tag,
      Element.children, hp, hd, hb]

/-- Claim C1: a record whose page list has exactly one display-index-0 page, named
cover.jpg, serializes (fresh base) with that page as a `book-info/coverpage`
element whose image href is cover.jpg; every `body/page` image comes from a
non-zero-index page; and extracting the written tree yields a page list whose
first entry is named cover.jpg. -/
theorem c1_cover_roundtrip (syn : SynTables) (c : Collab) (md : GenericMetadata)
    (p : PageMetadata) (fl : List String)
    (hf : p.filename = "cover.jpg")
    (hz : md.pages.filter (fun q => q.display_index = 0) = [p]) :
    (∃ cover, findPath ["meta-data", "book-info", "coverpage"]
        (convert_metadata_to_xml syn md none).1 = some cover ∧
      ∃ img, cover.children.find? (fun ch => ch.tag = "image") = some img ∧
        img.get "href" = some "cover.jpg") ∧
    (∀ pe ∈ findAllPath ["body", "page"] (convert_metadata_to_xml syn md none).1,
      ∀ img, pe.children.find? (fun ch => ch.tag = "image") = some img →
        ∃ q ∈ md.pages, ¬ q.display_index = 0 ∧ img.get "href" = some q.filename) ∧
    (∃ md2, convert_xml_to_metadata c (convert_metadata_to_xml syn md none).1 fl =
        .ok md2 ∧
      ∃ pg, md2.pages.head? = some pg ∧ pg.filename = "cover.jpg") := by
  rw [convert_eq_build]
  simp only
  obtain ⟨biPre, tl, bodyL, hbi, hpre, hbody, hbodyP⟩ := pipeline_cover syn md p hz
  set vF := (viewPipeline syn md).1 with hvF
  have hfilPre : biPre.filter (fun c0 => c0.tag = "coverpage") = [] :=
    List.filter_eq_nil_iff.mpr (fun e he => by simpa using (hpre e he).1)
  refine ⟨⟨Element.mk "coverpage" [] none
      (mkChild "image" none [("href", p.filename)] :: tl), ?_,
      mkChild "image" none [("href", p.filename)], ?_, ?_⟩, ?_, ?_⟩
  · unfold findPath
    rw [findAllPath_bi_build, hbi, List.filter_append, hfilPre]
    simp [Element.tag]
  · simp only [Element.children]
    rw [List.find?_cons_of_pos _ (by rfl)]
  · rw [hf]
    rfl
  · intro pe hpe img himg
    rw [findAllPath_bodyChild_build, hbody] at hpe
    simp only [Option.getD_some] at hpe
    obtain ⟨q, hq, hq0, hfind⟩ := hbodyP pe (List.mem_of_mem_filter hpe)
    refine ⟨q, hq, hq0, ?_⟩
    have himg2 : img = mkChild "image" none [("href", q.filename)] :=
      Option.some.inj (himg ▸ hfind)
    rw [himg2]
    rfl
  · unfold convert_xml_to_metadata
    have hgate : ¬ ((vF.build).tag ∉ acbf_tags) := by
      have htag : (vF.build).tag = "ACBF" := rfl
      rw [htag]
      decide
    rw [if_neg hgate]
    rw [stripNs_build vF]
    dsimp only
    have hfd := findPath_biP_build
      ⟨stripNsL vF.bi, vF.pub.map stripNsL, vF.doc.map stripNsL, vF.body.map stripNsL⟩
    simp only [biP] at hfd
    rw [hfd]
    dsimp only
    have hstrip_tags : ∀ e ∈ stripNsL biPre,
        ¬ e.tag = "coverpage" ∧ ¬ e.tag = "languages" := by
      intro e he
      obtain ⟨c0, hc0, he2⟩ := mem_stripNsL biPre e he
      subst he2
      have hs := hpre c0 hc0
      have ht : (stripNs c0).tag = c0.tag := by
        rw [stripNs_tag]
        unfold stripTag
        rw [if_neg hs.2.2]
      rw [ht]
      exact ⟨hs.1, hs.2.1⟩
    have hfl2 : (stripNsL vF.bi).filter (fun t => t.tag = "languages") = [] := by
      rw [hbi, stripNsL_append, List.filter_append]
      have h1 : (stripNsL biPre).filter (fun t => t.tag = "languages") = [] :=
        List.filter_eq_nil_iff.mpr (fun e he => by simpa using (hstrip_tags e he).2)
      rw [h1]
      rfl
    have hlang : langDecode (Element.mk "book-info" [] none (stripNsL vF.bi)) =
        .ok none := by
      unfold langDecode
      simp only [Element.children]
      rw [hfl2]
    rw [hlang]
    refine ⟨_, rfl, ?_⟩
    dsimp only
    unfold pagesDecode
    dsimp only
    have hcovfind : (stripNsL vF.bi).find? (fun c0 => c0.tag = "coverpage") =
        some (stripNs (Element.mk "coverpage" [] none
          (mkChild "image" none [("href", p.filename)] :: tl))) := by
      rw [hbi, stripNsL_append]
      rw [find_append_left_none _ _ _ (List.find?_eq_none.mpr
        (fun x hx => by simpa using (hstrip_tags x hx).1))]
      simp only [stripNsL]
      rw [List.find?_cons_of_pos _ (by rfl)]
    simp only [Element.children]
    rw [hcovfind]
    dsimp only
    refine ⟨_, rfl, ?_⟩
    dsimp only
    have hsc : stripNs (Element.mk "coverpage" [] none
        (mkChild "image" none [("href", p.filename)] :: tl)) =
        Element.mk "coverpage" [] none
          (mkChild "image" none [("href", p.filename)] :: stripNsL tl) := rfl
    rw [hsc]
    dsimp only
    rw [List.find?_cons_of_pos _ (by rfl)]
    dsimp only
    rw [hf]
    rfl

theorem c1_cover_roundtrip_witness :
    ((⟨"cover.jpg", 0, 0, "", ""⟩ : PageMetadata).filename = "cover.jpg") ∧
    (({ GenericMetadata.empty with
        pages := [⟨"cover.jpg", 0, 0, "", ""⟩, ⟨"page2.jpg", 1, 1, "", ""⟩] } :
        GenericMetadata).pages.filter (fun q => q.display_index = 0) =
      [(⟨"cover.jpg", 0, 0, "", ""⟩ : PageMetadata)]) ∧
    ((∃ cover, findPath ["meta-data", "book-info", "coverpage"]
        (convert_metadata_to_xml trivSyn { GenericMetadata.empty with
          pages := [⟨"cover.jpg", 0, 0, "", ""⟩, ⟨"page2.jpg", 1, 1, "", ""⟩] } none).1 =
          some cover ∧
      ∃ img, cover.children.find? (fun ch => ch.tag = "image") = some img ∧
        img.get "href" = some "cover.jpg") ∧
    (∀ pe ∈ findAllPath ["body", "page"]
        (convert_metadata_to_xml trivSyn { GenericMetadata.empty with
          pages := [⟨"cover.jpg", 0, 0, "", ""⟩, ⟨"page2.jpg", 1, 1, "", ""⟩] } none).1,
      ∀ img, pe.children.find? (fun ch => ch.tag = "image") = some img →
        ∃ q ∈ ({ GenericMetadata.empty with
          pages := [⟨"cover.jpg", 0, 0, "", ""⟩, ⟨"page2.jpg", 1, 1, "", ""⟩] } :
            GenericMetadata).pages,
          ¬ q.display_index = 0 ∧ img.get "href" = some q.filename) ∧
    (∃ md2, convert_xml_to_metadata trivCollab
        (convert_metadata_to_xml trivSyn { GenericMetadata.empty with
          pages := [⟨"cover.jpg", 0, 0, "", ""⟩, ⟨"page2.jpg", 1, 1, "", ""⟩] } none).1
        [] = .ok md2 ∧
      ∃ pg, md2.pages.head? = some pg ∧ pg.filename = "cover.jpg")) :=
  ⟨rfl, by decide,
    c1_cover_roundtrip trivSyn trivCollab
      { GenericMetadata.empty with
        pages := [⟨"cover.jpg", 0, 0, "", ""⟩, ⟨"page2.jpg", 1, 1, "", ""⟩] }
      ⟨"cover.jpg", 0, 0, "", ""⟩ [] rfl (by decide)⟩

/-- Counterexample to the literal C1 quantification: when the page list holds
a second display-index-0 page before cover.jpg, the stable sort keeps list
order, so the other page becomes the coverpage and cover.jpg lands under
`body/page`. -/
theorem c1_first_zero_page_wins :
    ∃ cover, findPath ["meta-data", "book-info", "coverpage"]
        (convert_metadata_to_xml trivSyn { GenericMetadata.empty with
          pages := [⟨"other.jpg", 0, 0, "", ""⟩, ⟨"cover.jpg", 0, 1, "", ""⟩] } none).1 =
        some cover ∧
      (cover.children.find? (fun ch => ch.tag = "image")).map (fun img => img.get "href") =
        some (some "other.jpg") ∧
      (findAllPath ["body", "page"]
        (convert_metadata_to_xml trivSyn { GenericMetadata.empty with
          pages := [⟨"other.jpg", 0, 0, "", ""⟩, ⟨"cover.jpg", 0, 1, "", ""⟩] } none).1).map
        (fun pe => (pe.children.find? (fun ch => ch.tag = "image")).map
          (fun img => img.get "href")) = [some (some "cover.jpg")] :=
  ⟨_, rfl, rfl, rfl⟩
